import Mathlib

/-!
Verification of the photon-pump connection engine (photonpump/connection.py and
photonpump/connection2.py) against its natural-language specification.

The development shallowly embeds the relevant Python code in Lean:

* `MessageReader.process` (the frame decoder, identical algorithm in both
  files) becomes a fuel-indexed pure function over byte lists; a `none` result
  means the source's `while` loop has not terminated within the given fuel.
  Bytes are `Nat`s, a Python `bytearray`/`array` is a `List Nat`, a
  `uuid.UUID(bytes_le=...)` value is identified with its 16 raw bytes (the
  `bytes_le` constructor is a bijection onto 16-byte strings).
* `MessageDispatcher` (both variants), `PaceMaker` and the heartbeat /
  connect / stop handlers of `Connector` become explicit state-passing
  functions; asyncio queues become `List`s of their elements (queue contents
  in order), futures become `Option`-valued slots.
-/

namespace PhotonPump

/-! ## List helper lemmas -/

theorem list_take_app_le {α : Type} :
    ∀ (l1 l2 : List α) (n : Nat), n ≤ l1.length → (l1 ++ l2).take n = l1.take n := by
  intro l1 l2 n
  induction l1 generalizing n with
  | nil => intro h; simp at h; simp [h]
  | cons a l ih =>
    intro h
    cases n with
    | zero => simp
    | succ m => simpa using ih m (by simpa using h)

theorem list_drop_app_le {α : Type} :
    ∀ (l1 l2 : List α) (n : Nat), n ≤ l1.length → (l1 ++ l2).drop n = l1.drop n ++ l2 := by
  intro l1 l2 n
  induction l1 generalizing n with
  | nil => intro h; simp at h; simp [h]
  | cons a l ih =>
    intro h
    cases n with
    | zero => simp
    | succ m => simpa using ih m (by simpa using h)

theorem list_take_app_full {α : Type} (l1 l2 : List α) : (l1 ++ l2).take l1.length = l1 := by
  rw [list_take_app_le l1 l2 l1.length (le_refl _)]
  simp

theorem list_drop_app_full {α : Type} (l1 l2 : List α) : (l1 ++ l2).drop l1.length = l2 := by
  rw [list_drop_app_le l1 l2 l1.length (le_refl _)]
  simp

theorem list_take_add {α : Type} :
    ∀ (l : List α) (m n : Nat), l.take (m + n) = l.take m ++ (l.drop m).take n := by
  intro l m
  induction l generalizing m with
  | nil => intro n; simp
  | cons a t ih =>
    intro n
    cases m with
    | zero => simp
    | succ k =>
      have : k + 1 + n = (k + n) + 1 := by omega
      rw [this]
      simpa using ih k n

theorem list_drop_drop {α : Type} :
    ∀ (l : List α) (m n : Nat), (l.drop m).drop n = l.drop (m + n) := by
  intro l m
  induction l generalizing m with
  | nil => intro n; simp
  | cons a t ih =>
    intro n
    cases m with
    | zero => simp
    | succ k =>
      have : k + 1 + n = (k + n) + 1 := by omega
      rw [this]
      simp [ih k n]

theorem list_set_take_succ {α : Type} :
    ∀ (l : List α) (k : Nat) (b : α), k < l.length →
      (l.set k b).take (k + 1) = l.take k ++ [b] := by
  intro l
  induction l with
  | nil => intro k b h; simp at h
  | cons a t ih =>
    intro k b h
    cases k with
    | zero => simp
    | succ m => simpa using ih m b (by simpa using h)

theorem list_take_getD_succ {α : Type} :
    ∀ (l : List α) (k : Nat) (d : α), k < l.length →
      l.take (k + 1) = l.take k ++ [l.getD k d] := by
  intro l
  induction l with
  | nil => intro k d h; simp at h
  | cons a t ih =>
    intro k d h
    cases k with
    | zero => simp [List.getD]
    | succ m =>
      have := ih m d (by simpa using h)
      simpa [List.getD] using this

theorem list_drop_getD_cons {α : Type} :
    ∀ (l : List α) (k : Nat) (d : α), k < l.length →
      l.drop k = l.getD k d :: l.drop (k + 1) := by
  intro l
  induction l with
  | nil => intro k d h; simp at h
  | cons a t ih =>
    intro k d h
    cases k with
    | zero => simp [List.getD]
    | succ m =>
      have := ih m d (by simpa using h)
      simpa [List.getD] using this

theorem list_take_all {α : Type} (l : List α) (n : Nat) (h : l.length = n) : l.take n = l := by
  subst h; simp

/-! ## The frame decoder (`MessageReader.process`)

Embeds `MessageReader` from photonpump/connection.py (lines 359-483); the
decoding algorithm of `MessageReader.process` in photonpump/connection2.py
(lines 405-518) is byte-for-byte the same, the two differ only in where an
emitted `InboundMessage` is routed (modelled separately by `routeMessage`
below). -/

/-- A wire byte, kept as a `Nat` (real chunks satisfy `b < 256`). -/
abbrev Byte := Nat

/-- Constant `HEADER_LENGTH = 1 + 1 + 16` from connection.py line 14. -/
def HEADER_LENGTH : Nat := 1 + 1 + 16

/-- Constant `SIZE_UINT_32 = 4` from connection.py line 15. -/
def SIZE_UINT_32 : Nat := 4

/-- Constant `MessageReader.MESSAGE_MIN_SIZE = SIZE_UINT_32 + HEADER_LENGTH` (= 22). -/
def MESSAGE_MIN_SIZE : Nat := SIZE_UINT_32 + HEADER_LENGTH

/-- An `msg.InboundMessage(conversation_id, cmd, payload)` as constructed by
`MessageReader.process`. The `uuid.UUID` conversation id is identified with
its 16 `bytes_le` bytes; `command` is an `Int` because the reader stores `-1`
in `self.cmd` after emitting a message. -/
structure InboundMessage where
  conversationId : List Byte
  command : Int
  payload : List Byte
deriving DecidableEq, Repr

/-- The mutable fields of `MessageReader` that `process` reads and writes:
`header_bytes` (a fixed 22-byte array), `header_bytes_required`, `length`
(`-1` after a message is emitted), `cmd`, `flags`, `message_offset`,
`conversation_id` and `message_buffer` (`none` models Python `None`).
`cmd` and `flags` are unset in `__init__`; the model starts them at `0`,
a value the algorithm never observes before the first header parse. -/
structure ReaderState where
  headerBytes : List Byte
  headerBytesRequired : Nat
  length : Int
  cmd : Int
  flags : Byte
  messageOffset : Nat
  conversationId : Option (List Byte)
  messageBuffer : Option (List Byte)
deriving DecidableEq, Repr

/-- State set up by `MessageReader.__init__`: a zeroed 22-byte header buffer, 22 header bytes
required, `length = 0`, `message_offset = 0`, no conversation id, no body
buffer. -/
def initialReaderState : ReaderState :=
  { headerBytes := List.replicate MESSAGE_MIN_SIZE 0
    headerBytesRequired := MESSAGE_MIN_SIZE
    length := 0
    cmd := 0
    flags := 0
    messageOffset := 0
    conversationId := none
    messageBuffer := none }

/-- The header parse performed once `header_bytes_required` reaches zero:
`(length, cmd, flags) = HEAD_PACK.unpack(header_bytes[0:6])` with
`HEAD_PACK = struct.Struct("<IBB")`, and
`conversation_id = uuid.UUID(bytes_le=header_bytes[6:22])`.
The wildcard branch is unreachable: `header_bytes` always holds 22 bytes. -/
def parseHeader (s : ReaderState) : ReaderState :=
  match s.headerBytes with
  | b0 :: b1 :: b2 :: b3 :: c :: f :: rest =>
    { s with
      length := ((b0 + 256 * b1 + 65536 * b2 + 16777216 * b3 : Nat) : Int)
      cmd := (c : Int)
      flags := f
      conversationId := some (rest.take 16) }
  | _ => s

/-- The inner `while self.header_bytes_required and chunk_offset < chunk_len`
loop of `process`: copy one chunk byte into `header_bytes` at offset
`MESSAGE_MIN_SIZE - header_bytes_required`, decrement the requirement, parse
the header when it becomes complete, and set `message_offset = HEADER_LENGTH`
on every iteration, until the requirement is zero or the chunk is spent. -/
def readHeader : ReaderState → List Byte → ReaderState × List Byte
  | s, [] => (s, [])
  | s, b :: rest =>
    if s.headerBytesRequired = 0 then (s, b :: rest)
    else
      let offset := MESSAGE_MIN_SIZE - s.headerBytesRequired
      let s1 := { s with headerBytes := s.headerBytes.set offset b
                         headerBytesRequired := s.headerBytesRequired - 1 }
      let s2 := if s1.headerBytesRequired = 0 then parseHeader s1 else s1
      readHeader { s2 with messageOffset := HEADER_LENGTH } rest

/-- The body-copy step of `process`: with
`message_bytes_required = length - message_offset`, if it is positive, extend
`message_buffer` (created empty on first use) with
`chunk[chunk_offset:end_span]` where
`end_span = min(chunk_len, message_bytes_required + chunk_offset)`, and
advance `message_offset` by the bytes read. -/
def copyBody (s : ReaderState) (chunk : List Byte) : ReaderState × List Byte :=
  let required : Int := s.length - (s.messageOffset : Int)
  if 0 < required then
    let n := min chunk.length required.toNat
    ({ s with messageBuffer := some (s.messageBuffer.getD [] ++ chunk.take n)
              messageOffset := s.messageOffset + n },
     chunk.drop n)
  else (s, chunk)

/-- The field resets executed by `process` right after emitting a message:
`length = -1`, `message_offset = 0`, `conversation_id = None`, `cmd = -1`,
`header_bytes_required = MESSAGE_MIN_SIZE`, `message_buffer = None`. -/
def resetReader (s : ReaderState) : ReaderState :=
  { s with length := -1
           messageOffset := 0
           conversationId := none
           cmd := -1
           headerBytesRequired := MESSAGE_MIN_SIZE
           messageBuffer := none }

/-- The `if not message_bytes_required:` step of `process`: when
`length - message_offset` is exactly zero, emit
`InboundMessage(conversation_id, cmd, message_buffer or b"")` and reset the
reader. A negative `message_bytes_required` (a `length` field below
`HEADER_LENGTH`) is truthy in Python, so nothing is emitted and nothing is
reset. -/
def maybeEmit (s : ReaderState) : ReaderState × List InboundMessage :=
  if s.length - (s.messageOffset : Int) = 0 then
    (resetReader s, [⟨s.conversationId.getD [], s.cmd, s.messageBuffer.getD []⟩])
  else (s, [])

/-- The outer `while chunk_offset < chunk_len` loop of `process`, indexed by
fuel: each unrolling runs the header loop, the body copy and the emit check
once. `none` means the loop has not terminated within `fuel` iterations —
the source loop has no other exit, so an input on which every fuel yields
`none` makes the Python loop spin forever. The emitted messages are collected
in order. -/
def processLoop : Nat → ReaderState → List Byte → Option (ReaderState × List InboundMessage)
  | 0, _, _ => none
  | _ + 1, s, [] => some (s, [])
  | fuel + 1, s, b :: rest =>
    let a1 := readHeader s (b :: rest)
    let a2 := copyBody a1.1 a1.2
    let a3 := maybeEmit a2.1
    match processLoop fuel a3.1 a2.2 with
    | none => none
    | some r => some (r.1, a3.2 ++ r.2)

/-- Embeds `MessageReader.process(chunk)`. On every terminating run each loop
iteration consumes at least one chunk byte, so `chunk.length + 1` unrollings
are exactly enough fuel; `none` reproduces the non-terminating runs. -/
def process (s : ReaderState) (chunk : List Byte) : Option (ReaderState × List InboundMessage) :=
  processLoop (chunk.length + 1) s chunk

/-- Feeding a sequence of chunks to `process` one after another, threading the
reader state and concatenating the emitted messages, as the read pump does
with successive socket reads. -/
def processChunks : ReaderState → List (List Byte) → Option (ReaderState × List InboundMessage)
  | s, [] => some (s, [])
  | s, c :: cs =>
    match process s c with
    | none => none
    | some r =>
      match processChunks r.1 cs with
      | none => none
      | some r2 => some (r2.1, r.2 ++ r2.2)

/-! ## Frames and their encoding -/

/-- A well-formed wire frame: command code, flags, 16-byte conversation id
(in `bytes_le` order) and opaque payload. The length field of a well-formed
frame is determined as `HEADER_LENGTH + payload.length`, hence always at
least 18. -/
structure Frame where
  cmd : Byte
  flags : Byte
  conversationId : List Byte
  payload : List Byte
deriving DecidableEq, Repr

/-- Four little-endian bytes of a 32-bit length, as produced by
`struct.pack("<I", n)`. -/
def toLE4 (n : Nat) : List Byte :=
  [n % 256, n / 256 % 256, n / 65536 % 256, n / 16777216 % 256]

/-- Modelled from the spec: frame encoding. `OutboundMessage.header_bytes`
lives in photonpump/messages.py, which is not under src/; spec section 4.1
fixes the layout as four little-endian length bytes covering the remainder of
the frame, the command byte, the flags byte, the 16-byte little-endian UUID,
then the payload. -/
def encodeFrame (F : Frame) : List Byte :=
  toLE4 (HEADER_LENGTH + F.payload.length) ++ [F.cmd, F.flags] ++ F.conversationId ++ F.payload

/-- Total number of wire bytes of a frame: 4 length bytes + 18 header bytes +
payload. -/
def wireSize (F : Frame) : Nat := MESSAGE_MIN_SIZE + F.payload.length

/-- Well-formedness of a frame: genuine byte values, a 16-byte conversation
id, and a length field that fits in an unsigned 32-bit integer. -/
def WFFrame (F : Frame) : Prop :=
  F.cmd < 256 ∧ F.flags < 256 ∧ F.conversationId.length = 16 ∧
    (∀ b ∈ F.conversationId, b < 256) ∧ (∀ b ∈ F.payload, b < 256) ∧
    HEADER_LENGTH + F.payload.length < 4294967296

instance (F : Frame) : Decidable (WFFrame F) := by
  unfold WFFrame; infer_instance

/-- The `InboundMessage` the decoder should emit for a frame. -/
def frameToMessage (F : Frame) : InboundMessage :=
  ⟨F.conversationId, (F.cmd : Int), F.payload⟩

/-- Concatenation of the encodings of a list of frames. -/
def streamBytes : List Frame → List Byte
  | [] => []
  | F :: fs => encodeFrame F ++ streamBytes fs

/-- Concatenation of a list of chunks. -/
def concatChunks : List (List Byte) → List Byte
  | [] => []
  | c :: cs => c ++ concatChunks cs

/-! ## Facts about the encoding -/

theorem encodeFrame_split (F : Frame) :
    encodeFrame F =
      (toLE4 (HEADER_LENGTH + F.payload.length) ++ [F.cmd, F.flags] ++ F.conversationId)
        ++ F.payload := by
  simp [encodeFrame]

theorem encodeFrame_head_length (F : Frame) (hcid : F.conversationId.length = 16) :
    (toLE4 (HEADER_LENGTH + F.payload.length) ++ [F.cmd, F.flags] ++ F.conversationId).length
      = 22 := by
  simp [toLE4, hcid]

theorem encodeFrame_length (F : Frame) (hcid : F.conversationId.length = 16) :
    (encodeFrame F).length = 22 + F.payload.length := by
  simp [encodeFrame, toLE4, hcid]
  omega

theorem encodeFrame_take22 (F : Frame) (hcid : F.conversationId.length = 16) :
    (encodeFrame F).take 22 =
      toLE4 (HEADER_LENGTH + F.payload.length) ++ [F.cmd, F.flags] ++ F.conversationId := by
  rw [encodeFrame_split]
  rw [← encodeFrame_head_length F hcid]
  exact list_take_app_full _ _

theorem encodeFrame_drop22 (F : Frame) (hcid : F.conversationId.length = 16) :
    (encodeFrame F).drop 22 = F.payload := by
  rw [encodeFrame_split]
  rw [← encodeFrame_head_length F hcid]
  exact list_drop_app_full _ _

theorem parseHeader_spec (F : Frame) (s : ReaderState)
    (hwf : WFFrame F)
    (hhb : s.headerBytes = (encodeFrame F).take 22) :
    parseHeader s = { s with
      length := ((HEADER_LENGTH + F.payload.length : Nat) : Int)
      cmd := (F.cmd : Int)
      flags := F.flags
      conversationId := some F.conversationId } := by
  obtain ⟨hcmd, hflags, hcid, _, _, hlen⟩ := hwf
  have h22 := encodeFrame_take22 F hcid
  rw [h22] at hhb
  have hcons : s.headerBytes =
      (HEADER_LENGTH + F.payload.length) % 256 ::
      (HEADER_LENGTH + F.payload.length) / 256 % 256 ::
      (HEADER_LENGTH + F.payload.length) / 65536 % 256 ::
      (HEADER_LENGTH + F.payload.length) / 16777216 % 256 ::
      F.cmd :: F.flags :: F.conversationId := by
    rw [hhb]; simp [toLE4]
  cases s with
  | mk hb hbr len cmd flags mo cid mb =>
    simp only at hcons
    subst hcons
    simp only [parseHeader]
    have harith :
        ((HEADER_LENGTH + F.payload.length) % 256 +
          256 * ((HEADER_LENGTH + F.payload.length) / 256 % 256) +
          65536 * ((HEADER_LENGTH + F.payload.length) / 65536 % 256) +
          16777216 * ((HEADER_LENGTH + F.payload.length) / 16777216 % 256))
          = HEADER_LENGTH + F.payload.length := by
      simp only [HEADER_LENGTH] at hlen ⊢
      omega
    rw [harith, list_take_all F.conversationId 16 hcid]

theorem readHeader_nil (s : ReaderState) : readHeader s [] = (s, []) := rfl

theorem readHeader_done (s : ReaderState) (c : List Byte)
    (h : s.headerBytesRequired = 0) : readHeader s c = (s, c) := by
  cases c with
  | nil => rfl
  | cons b rest => simp [readHeader, h]

theorem readHeader_cons_eq (s : ReaderState) (b : Byte) (rest : List Byte)
    (h : s.headerBytesRequired ≠ 0) :
    readHeader s (b :: rest) =
      if s.headerBytesRequired - 1 = 0 then
        readHeader { parseHeader { s with
            headerBytes := s.headerBytes.set (MESSAGE_MIN_SIZE - s.headerBytesRequired) b
            headerBytesRequired := s.headerBytesRequired - 1 }
          with messageOffset := HEADER_LENGTH } rest
      else
        readHeader { s with
            headerBytes := s.headerBytes.set (MESSAGE_MIN_SIZE - s.headerBytesRequired) b
            headerBytesRequired := s.headerBytesRequired - 1
            messageOffset := HEADER_LENGTH } rest := by
  rw [readHeader]
  rw [if_neg h]
  by_cases h1 : s.headerBytesRequired - 1 = 0
  · simp only [h1, reduceIte]
  · simp only [h1, reduceIte, if_neg h1]

/-- Behaviour of the header-filling loop when fed a non-empty chunk that is a
prefix of the remaining stream, starting `k` bytes into a frame's header. It
consumes `min c.length (22 - k)` bytes; once 22 header bytes have arrived it
parses them into the frame's length, command and conversation id. -/
theorem readHeader_spec :
    ∀ (c : List Byte) (k : Nat) (s : ReaderState) (F : Frame) (tail : List Byte),
      WFFrame F → k < 22 →
      s.headerBytes.length = 22 →
      s.headerBytesRequired = 22 - k →
      s.headerBytes.take k = (encodeFrame F).take k →
      c ≠ [] →
      c <+: (encodeFrame F).drop k ++ tail →
      (readHeader s c).2 = c.drop (22 - k) ∧
      ((readHeader s c).1).headerBytes.length = 22 ∧
      ((readHeader s c).1).headerBytes.take (min (k + c.length) 22) =
        (encodeFrame F).take (min (k + c.length) 22) ∧
      ((readHeader s c).1).headerBytesRequired = 22 - min (k + c.length) 22 ∧
      ((readHeader s c).1).messageBuffer = s.messageBuffer ∧
      ((readHeader s c).1).messageOffset = HEADER_LENGTH ∧
      (k + c.length < 22 → ((readHeader s c).1).length = s.length) ∧
      (22 ≤ k + c.length →
        ((readHeader s c).1).length = ((HEADER_LENGTH + F.payload.length : Nat) : Int) ∧
        ((readHeader s c).1).cmd = (F.cmd : Int) ∧
        ((readHeader s c).1).conversationId = some F.conversationId) := by
  intro c
  induction c with
  | nil => intro k s F tail _ _ _ _ _ hne _; exact absurd rfl hne
  | cons b rest ih =>
    intro k s F tail hwf hk hlen22 hreq htake _ hpre
    have hElen : (encodeFrame F).length = 22 + F.payload.length :=
      encodeFrame_length F hwf.2.2.1
    have hkE : k < (encodeFrame F).length := by omega
    obtain ⟨t, ht⟩ := hpre
    rw [list_drop_getD_cons (encodeFrame F) k 0 hkE] at ht
    simp only [List.cons_append] at ht
    have hb : b = (encodeFrame F).getD k 0 := (List.cons.injEq _ _ _ _).mp ht |>.1
    have hrest : rest ++ t = (encodeFrame F).drop (k + 1) ++ tail :=
      (List.cons.injEq _ _ _ _).mp ht |>.2
    have hreq0 : s.headerBytesRequired ≠ 0 := by omega
    have hoff : MESSAGE_MIN_SIZE - s.headerBytesRequired = k := by
      simp only [MESSAGE_MIN_SIZE, SIZE_UINT_32, HEADER_LENGTH] at *
      omega
    have hset_len : (s.headerBytes.set k b).length = 22 := by
      simpa using hlen22
    have hset_take : (s.headerBytes.set k b).take (k + 1) = (encodeFrame F).take (k + 1) := by
      rw [list_set_take_succ s.headerBytes k b (by omega), htake, hb]
      exact (list_take_getD_succ (encodeFrame F) k 0 hkE).symm
    by_cases hk21 : k + 1 = 22
    · -- the byte just stored completes the header: parse it, then stop consuming
      have hreq1 : s.headerBytesRequired - 1 = 0 := by omega
      have hfull : ({ s with headerBytes := s.headerBytes.set k b
                             headerBytesRequired := s.headerBytesRequired - 1 }
            : ReaderState).headerBytes = (encodeFrame F).take 22 := by
        show s.headerBytes.set k b = (encodeFrame F).take 22
        have h1 : (s.headerBytes.set k b).take 22 = (encodeFrame F).take 22 := by
          rw [← hk21]; exact hset_take
        rw [← h1]
        exact (list_take_all _ _ hset_len).symm
      rw [readHeader_cons_eq s b rest hreq0, hoff, if_pos hreq1]
      rw [parseHeader_spec F _ hwf hfull]
      rw [readHeader_done _ rest (by exact hreq1)]
      have hmin : min (k + (b :: rest).length) 22 = 22 := by
        simp only [List.length_cons]; omega
      rw [hmin]
      have hd1 : 22 - k = 1 := by omega
      refine ⟨?_, ?_, ?_, ?_, ?_, ?_, ?_, ?_⟩
      · rw [hd1]; rfl
      · simpa using hset_len
      · show (s.headerBytes.set k b).take 22 = (encodeFrame F).take 22
        rw [← hk21]; exact hset_take
      · show s.headerBytesRequired - 1 = 22 - 22
        omega
      · rfl
      · rfl
      · intro hcon; simp only [List.length_cons] at hcon; omega
      · intro _; exact ⟨rfl, rfl, rfl⟩
    · -- header still incomplete after this byte
      have hreq1 : s.headerBytesRequired - 1 ≠ 0 := by omega
      rw [readHeader_cons_eq s b rest hreq0, hoff, if_neg hreq1]
      cases rest with
      | nil =>
        rw [readHeader_nil]
        have hmin : min (k + ([b] : List Byte).length) 22 = k + 1 := by
          simp only [List.length_cons, List.length_nil]; omega
        rw [hmin]
        refine ⟨?_, ?_, ?_, ?_, ?_, ?_, ?_, ?_⟩
        · show ([] : List Byte) = ([b] : List Byte).drop (22 - k)
          exact (List.drop_eq_nil_of_le (by simp; omega)).symm
        · simpa using hset_len
        · exact hset_take
        · show s.headerBytesRequired - 1 = 22 - (k + 1)
          omega
        · rfl
        · rfl
        · intro _; rfl
        · intro hcon; simp only [List.length_cons, List.length_nil] at hcon; omega
      | cons r rs =>
        have ihres := ih (k + 1)
          { s with headerBytes := s.headerBytes.set k b
                   headerBytesRequired := s.headerBytesRequired - 1
                   messageOffset := HEADER_LENGTH }
          F tail hwf (by omega)
          (by simpa using hlen22)
          (by show s.headerBytesRequired - 1 = 22 - (k + 1); omega)
          (by exact hset_take)
          (by simp)
          ⟨t, hrest⟩
        have hlenc : k + (b :: r :: rs).length = (k + 1) + (r :: rs).length := by
          simp only [List.length_cons]; omega
        refine ⟨?_, ?_, ?_, ?_, ?_, ?_, ?_, ?_⟩
        · have h2 := ihres.1
          have hd : (22 - k) = (22 - (k + 1)) + 1 := by omega
          rw [hd]
          simpa using h2
        · exact ihres.2.1
        · rw [hlenc]; exact ihres.2.2.1
        · rw [hlenc]; exact ihres.2.2.2.1
        · exact ihres.2.2.2.2.1
        · exact ihres.2.2.2.2.2.1
        · intro h
          rw [hlenc] at h
          exact ihres.2.2.2.2.2.2.1 h
        · intro h
          rw [hlenc] at h
          exact ihres.2.2.2.2.2.2.2 h

/-! ## The reference consumption function

`consumeFrames fs k n` describes what consuming `n` bytes of the byte stream
of `fs`, starting `k` bytes into the first frame, must produce: the messages
of the frames completed within those bytes, the frames still pending, and the
new offset into the (new) first pending frame. The decoder is proved to
realise it. -/

/-- Predicate: `k` is a sensible offset into the byte stream of `fs`: strictly inside
the first frame, or zero when no frames remain. -/
def PosOk : List Frame → Nat → Prop
  | [], k => k = 0
  | F :: _, k => k < wireSize F

/-- The bytes of the stream of `fs` that have not been consumed yet when the
decoder stands `k` bytes into the first frame. -/
def remaining : List Frame → Nat → List Byte
  | [], _ => []
  | F :: fs, k => (encodeFrame F).drop k ++ streamBytes fs

def consumeFrames : List Frame → Nat → Nat → List InboundMessage × List Frame × Nat
  | [], k, _ => ([], [], k)
  | F :: fs, k, n =>
    if n < wireSize F - k then ([], F :: fs, k + n)
    else
      let r := consumeFrames fs 0 (n - (wireSize F - k))
      (frameToMessage F :: r.1, r.2.1, r.2.2)

theorem posOk_zero : ∀ fs : List Frame, PosOk fs 0 := by
  intro fs
  cases fs with
  | nil => rfl
  | cons F fs =>
    show 0 < wireSize F
    simp [wireSize, MESSAGE_MIN_SIZE, SIZE_UINT_32, HEADER_LENGTH]

theorem remaining_zero (fs : List Frame) : remaining fs 0 = streamBytes fs := by
  cases fs with
  | nil => rfl
  | cons F fs => simp [remaining, streamBytes]

theorem wireSize_pos (F : Frame) : 0 < wireSize F := by
  simp [wireSize, MESSAGE_MIN_SIZE, SIZE_UINT_32, HEADER_LENGTH]

theorem length_drop_encode (F : Frame) (hcid : F.conversationId.length = 16) (k : Nat) :
    ((encodeFrame F).drop k).length = wireSize F - k := by
  simp [encodeFrame_length F hcid, wireSize, MESSAGE_MIN_SIZE, SIZE_UINT_32, HEADER_LENGTH]

theorem list_drop_app_ge {α : Type} :
    ∀ (l1 l2 : List α) (n : Nat), l1.length ≤ n →
      (l1 ++ l2).drop n = l2.drop (n - l1.length) := by
  intro l1
  induction l1 with
  | nil => intro l2 n _; simp
  | cons a t ih =>
    intro l2 n h
    cases n with
    | zero => simp at h
    | succ m =>
      simp only [List.cons_append, List.drop_succ_cons, List.length_cons]
      rw [ih l2 m (by simpa using h)]
      congr 1
      omega

theorem consumeFrames_zero (fs : List Frame) (k : Nat) (h : PosOk fs k) :
    consumeFrames fs k 0 = ([], fs, k) := by
  cases fs with
  | nil => rfl
  | cons F fs =>
    have hk : k < wireSize F := h
    simp [consumeFrames]
    omega

theorem consumeFrames_split_emit (F : Frame) (fs : List Frame) (k m : Nat) :
    consumeFrames (F :: fs) k ((wireSize F - k) + m) =
      (frameToMessage F :: (consumeFrames fs 0 m).1,
       (consumeFrames fs 0 m).2.1, (consumeFrames fs 0 m).2.2) := by
  rw [consumeFrames]
  rw [if_neg (by omega)]
  have h : (wireSize F - k) + m - (wireSize F - k) = m := by omega
  rw [h]

theorem consumeFrames_lt (F : Frame) (fs : List Frame) (k n : Nat)
    (h : n < wireSize F - k) :
    consumeFrames (F :: fs) k n = ([], F :: fs, k + n) := by
  rw [consumeFrames, if_pos h]

theorem consumeFrames_pos_remaining :
    ∀ (fs : List Frame) (k n : Nat),
      (∀ F ∈ fs, WFFrame F) → PosOk fs k → n ≤ (remaining fs k).length →
      PosOk (consumeFrames fs k n).2.1 (consumeFrames fs k n).2.2 ∧
      remaining (consumeFrames fs k n).2.1 (consumeFrames fs k n).2.2 =
        (remaining fs k).drop n := by
  intro fs
  induction fs with
  | nil =>
    intro k n _ hpos hn
    have hk : k = 0 := hpos
    have hnz : n = 0 := by simpa [remaining] using hn
    subst hk; subst hnz
    exact ⟨rfl, rfl⟩
  | cons F fs ih =>
    intro k n hwf hpos hn
    have hwfF := hwf F (by simp)
    have hcid := hwfF.2.2.1
    have hdlen : ((encodeFrame F).drop k).length = wireSize F - k :=
      length_drop_encode F hcid k
    have hkw : k < wireSize F := hpos
    by_cases hlt : n < wireSize F - k
    · rw [consumeFrames_lt F fs k n hlt]
      refine ⟨by show k + n < wireSize F; omega, ?_⟩
      show (encodeFrame F).drop (k + n) ++ streamBytes fs =
        ((encodeFrame F).drop k ++ streamBytes fs).drop n
      rw [list_drop_app_le _ _ n (by omega), list_drop_drop]
    · have hsplit : n = (wireSize F - k) + (n - (wireSize F - k)) := by omega
      rw [hsplit, consumeFrames_split_emit]
      have hrem : (remaining (F :: fs) k).length
          = (wireSize F - k) + (streamBytes fs).length := by
        simp [remaining, hdlen]
      have hm : n - (wireSize F - k) ≤ (remaining fs 0).length := by
        rw [remaining_zero]
        rw [hrem] at hn
        omega
      have ihres := ih 0 (n - (wireSize F - k))
        (fun G hG => hwf G (by simp [hG])) (posOk_zero fs) hm
      refine ⟨ihres.1, ?_⟩
      rw [ihres.2, remaining_zero]
      show (streamBytes fs).drop (n - (wireSize F - k)) =
        ((encodeFrame F).drop k ++ streamBytes fs).drop ((wireSize F - k) + (n - (wireSize F - k)))
      rw [list_drop_app_ge _ _ _ (by omega)]
      congr 1
      omega

theorem consumeFrames_messages :
    ∀ (fs : List Frame) (k n : Nat),
      (∀ F ∈ fs, WFFrame F) → PosOk fs k → n ≤ (remaining fs k).length →
      (consumeFrames fs k n).1 ++ (consumeFrames fs k n).2.1.map frameToMessage
        = fs.map frameToMessage := by
  intro fs
  induction fs with
  | nil => intro k n _ _ _; rfl
  | cons F fs ih =>
    intro k n hwf hpos hn
    have hwfF := hwf F (by simp)
    have hcid := hwfF.2.2.1
    have hdlen : ((encodeFrame F).drop k).length = wireSize F - k :=
      length_drop_encode F hcid k
    by_cases hlt : n < wireSize F - k
    · rw [consumeFrames_lt F fs k n hlt]
      rfl
    · have hsplit : n = (wireSize F - k) + (n - (wireSize F - k)) := by omega
      rw [hsplit, consumeFrames_split_emit]
      have hrem : (remaining (F :: fs) k).length
          = (wireSize F - k) + (streamBytes fs).length := by
        simp [remaining, hdlen]
      have hm : n - (wireSize F - k) ≤ (remaining fs 0).length := by
        rw [remaining_zero]
        rw [hrem] at hn
        omega
      have ihres := ih 0 (n - (wireSize F - k))
        (fun G hG => hwf G (by simp [hG])) (posOk_zero fs) hm
      simp only [List.map_cons, List.cons_append]
      rw [ihres]

theorem consumeFrames_mem :
    ∀ (fs : List Frame) (k n : Nat) (G : Frame),
      G ∈ (consumeFrames fs k n).2.1 → G ∈ fs := by
  intro fs
  induction fs with
  | nil => intro k n G h; simp [consumeFrames] at h
  | cons F fs ih =>
    intro k n G h
    by_cases hlt : n < wireSize F - k
    · rw [consumeFrames_lt F fs k n hlt] at h
      exact h
    · have hsplit : n = (wireSize F - k) + (n - (wireSize F - k)) := by omega
      rw [hsplit, consumeFrames_split_emit] at h
      exact List.mem_cons_of_mem F (ih 0 _ G h)

theorem remaining_eq_nil (fs : List Frame) (k : Nat)
    (hwf : ∀ F ∈ fs, WFFrame F) (hpos : PosOk fs k)
    (h : remaining fs k = []) : fs = [] := by
  cases fs with
  | nil => rfl
  | cons F fs =>
    exfalso
    have hcid := (hwf F (by simp)).2.2.1
    have hdlen : ((encodeFrame F).drop k).length = wireSize F - k :=
      length_drop_encode F hcid k
    have hkw : k < wireSize F := hpos
    have : (remaining (F :: fs) k).length = 0 := by rw [h]; rfl
    simp [remaining, hdlen] at this
    omega

/-! ## The decoder invariant -/

/-- The decoder is `k` bytes into the header of frame `F` (`0 ≤ k ≤ 21`):
`22 - k` header bytes are still required, the bytes already stored agree with
the frame's encoding, the stale `length` field is at most 17 (it is `0`
initially and `-1` after every emission, so the emit and body-copy tests
stay disabled while the header is incomplete), and no body bytes are
buffered. -/
def HeaderPhase (s : ReaderState) (F : Frame) (k : Nat) : Prop :=
  s.headerBytes.length = 22 ∧ s.headerBytesRequired = 22 - k ∧
  s.headerBytes.take k = (encodeFrame F).take k ∧
  s.length ≤ 17 ∧ s.messageBuffer = none

/-- A reader state equivalent, for all future inputs, to the initial one:
all 22 header bytes required, stale `length ≤ 17`, no body buffered. Both
`initialReaderState` and every post-emission reset state are `Fresh`. -/
def Fresh (s : ReaderState) : Prop :=
  s.headerBytes.length = 22 ∧ s.headerBytesRequired = MESSAGE_MIN_SIZE ∧
  s.length ≤ 17 ∧ s.messageBuffer = none

/-- The decoder has consumed `k` wire bytes of frame `F` (`22 ≤ k <
wireSize F`): the header is parsed into `length`, `cmd` and
`conversation_id`, `message_offset` tracks `k` and the body buffer holds the
first `k - 22` payload bytes. -/
def MidBody (s : ReaderState) (F : Frame) (k : Nat) : Prop :=
  s.headerBytes.length = 22 ∧ s.headerBytesRequired = 0 ∧
  s.length = ((HEADER_LENGTH + F.payload.length : Nat) : Int) ∧
  s.cmd = (F.cmd : Int) ∧
  s.conversationId = some F.conversationId ∧
  s.messageOffset = k - SIZE_UINT_32 ∧
  s.messageBuffer.getD [] = F.payload.take (k - MESSAGE_MIN_SIZE)

/-- Invariant tying a reader state to the pending frames `fs` and the number
`k` of wire bytes of the first pending frame already consumed. -/
inductive Inv : ReaderState → List Frame → Nat → Prop
  | fresh (s : ReaderState) (fs : List Frame) : Fresh s → Inv s fs 0
  | midHeader (s : ReaderState) (F : Frame) (fs : List Frame) (k : Nat) :
      1 ≤ k → k ≤ 21 → HeaderPhase s F k → Inv s (F :: fs) k
  | midBody (s : ReaderState) (F : Frame) (fs : List Frame) (k : Nat) :
      22 ≤ k → k < wireSize F → MidBody s F k → Inv s (F :: fs) k

theorem fresh_initial : Fresh initialReaderState := by
  refine ⟨?_, rfl, ?_, rfl⟩
  · simp [initialReaderState, MESSAGE_MIN_SIZE, SIZE_UINT_32, HEADER_LENGTH]
  · show (0 : Int) ≤ 17
    omega

theorem fresh_headerPhase (s : ReaderState) (F : Frame) (h : Fresh s) :
    HeaderPhase s F 0 := by
  refine ⟨h.1, ?_, by simp, h.2.2.1, h.2.2.2⟩
  rw [h.2.1]
  rfl

theorem fresh_resetReader (s : ReaderState) (h : s.headerBytes.length = 22) :
    Fresh (resetReader s) := by
  refine ⟨h, rfl, ?_, rfl⟩
  show (-1 : Int) ≤ 17
  omega

theorem wireSize_ge22 (F : Frame) : 22 ≤ wireSize F := by
  simp [wireSize, MESSAGE_MIN_SIZE, SIZE_UINT_32, HEADER_LENGTH]

theorem inv_posOk (s : ReaderState) (fs : List Frame) (k : Nat) (h : Inv s fs k) :
    PosOk fs k := by
  induction h with
  | fresh fs _ => exact posOk_zero fs
  | midHeader F fs k h1 h2 _ =>
    show k < wireSize F
    have := wireSize_ge22 F
    omega
  | midBody F fs k h1 h2 _ => exact h2

/-! ## Step lemmas for the body copy and the emit check -/

theorem copyBody_skip (s : ReaderState) (c : List Byte)
    (h : s.length - (s.messageOffset : Int) ≤ 0) : copyBody s c = (s, c) := by
  simp only [copyBody]
  rw [if_neg (by omega)]

theorem copyBody_run (s : ReaderState) (c : List Byte)
    (h : 0 < s.length - (s.messageOffset : Int)) :
    copyBody s c =
      ({ s with
          messageBuffer := some (s.messageBuffer.getD [] ++
            c.take (min c.length (s.length - (s.messageOffset : Int)).toNat))
          messageOffset := s.messageOffset +
            min c.length (s.length - (s.messageOffset : Int)).toNat },
       c.drop (min c.length (s.length - (s.messageOffset : Int)).toNat)) := by
  simp only [copyBody]
  rw [if_pos h]

theorem maybeEmit_skip (s : ReaderState)
    (h : s.length - (s.messageOffset : Int) ≠ 0) : maybeEmit s = (s, []) := by
  simp only [maybeEmit]
  rw [if_neg h]

theorem maybeEmit_emit (s : ReaderState)
    (h : s.length - (s.messageOffset : Int) = 0) :
    maybeEmit s =
      (resetReader s, [⟨s.conversationId.getD [], s.cmd, s.messageBuffer.getD []⟩]) := by
  simp only [maybeEmit]
  rw [if_pos h]

theorem processLoop_nil (n : Nat) (s : ReaderState) (h : 1 ≤ n) :
    processLoop n s [] = some (s, []) := by
  cases n with
  | zero => omega
  | succ m => rfl

theorem processLoop_cons (n : Nat) (s : ReaderState) (b : Byte) (rest : List Byte) :
    processLoop (n + 1) s (b :: rest) =
      match processLoop n
          (maybeEmit (copyBody (readHeader s (b :: rest)).1 (readHeader s (b :: rest)).2).1).1
          (copyBody (readHeader s (b :: rest)).1 (readHeader s (b :: rest)).2).2 with
      | none => none
      | some r => some (r.1,
          (maybeEmit (copyBody (readHeader s (b :: rest)).1 (readHeader s (b :: rest)).2).1).2
            ++ r.2) := rfl

theorem processLoop_cons_eq (n : Nat) (s : ReaderState) (b : Byte) (rest : List Byte)
    (s1 sc se : ReaderState) (r1 r2 : List Byte) (em : List InboundMessage)
    (h1 : readHeader s (b :: rest) = (s1, r1))
    (h2 : copyBody s1 r1 = (sc, r2))
    (h3 : maybeEmit sc = (se, em)) :
    processLoop (n + 1) s (b :: rest) =
      match processLoop n se r2 with
      | none => none
      | some r => some (r.1, em ++ r.2) := by
  rw [processLoop_cons n s b rest]
  rw [h1]
  simp only [h2, h3]

/-- One iteration of the outer loop from a header-phase state: the iteration
fills header bytes; either the chunk runs out first (no message, still in the
header) or the header completes and the body logic of the same iteration takes
over. Stated with the induction hypothesis for the remaining fuel as an
explicit argument. -/
theorem headerPhase_step
    (n : Nat)
    (ih : ∀ (c : List Byte) (s : ReaderState) (fs : List Frame) (k : Nat),
      c.length + 1 ≤ n → (∀ F ∈ fs, WFFrame F) → Inv s fs k → c <+: remaining fs k →
      ∃ s2, processLoop n s c = some (s2, (consumeFrames fs k c.length).1) ∧
        Inv s2 (consumeFrames fs k c.length).2.1 (consumeFrames fs k c.length).2.2)
    (b : Byte) (rest : List Byte) (s : ReaderState) (F : Frame) (fs' : List Frame) (k : Nat)
    (hfuel : (b :: rest).length + 1 ≤ n + 1)
    (hwf : ∀ G ∈ F :: fs', WFFrame G)
    (hk21 : k ≤ 21)
    (hHP : HeaderPhase s F k)
    (hpre : (b :: rest) <+: remaining (F :: fs') k) :
    ∃ s2, processLoop (n + 1) s (b :: rest)
        = some (s2, (consumeFrames (F :: fs') k (b :: rest).length).1) ∧
      Inv s2 (consumeFrames (F :: fs') k (b :: rest).length).2.1
        (consumeFrames (F :: fs') k (b :: rest).length).2.2 := by
  obtain ⟨hhl, hhr, hht, hsl, hsb⟩ := hHP
  have hL : (b :: rest).length = rest.length + 1 := rfl
  have hwfF : WFFrame F := hwf F (by simp)
  have hcid := hwfF.2.2.1
  have hElen := encodeFrame_length F hcid
  have h22wf := wireSize_ge22 F
  have hH18 : HEADER_LENGTH = 18 := by decide
  have hM22 : MESSAGE_MIN_SIZE = 22 := by decide
  have hS4 : SIZE_UINT_32 = 4 := by decide
  have hwire : wireSize F = 22 + F.payload.length := by
    rw [wireSize, hM22]
  have hrh := readHeader_spec (b :: rest) k s F (streamBytes fs') hwfF (by omega)
    hhl hhr hht (by simp) hpre
  obtain ⟨hr2, hrlen, hrtake, hrreq, hrbuf, hrmo, hrlt, hrge⟩ := hrh
  by_cases hcase : k + (b :: rest).length < 22
  · -- header still incomplete: the chunk is exhausted inside the header
    have hminA : min (k + (b :: rest).length) 22 = k + (b :: rest).length := by omega
    rw [hminA] at hrtake hrreq
    have hdropnil : (b :: rest).drop (22 - k) = [] :=
      List.drop_eq_nil_of_le (by omega)
    rw [hdropnil] at hr2
    have hreqneg : (readHeader s (b :: rest)).1.length
        - ((readHeader s (b :: rest)).1.messageOffset : Int) ≤ 0 := by
      rw [hrlt hcase, hrmo, hH18]
      omega
    have h1 : readHeader s (b :: rest) = ((readHeader s (b :: rest)).1, []) := by
      rw [← hr2]
    have h2 : copyBody (readHeader s (b :: rest)).1 [] = ((readHeader s (b :: rest)).1, []) :=
      copyBody_skip _ _ hreqneg
    have h3 : maybeEmit (readHeader s (b :: rest)).1 = ((readHeader s (b :: rest)).1, []) :=
      maybeEmit_skip _ (by omega)
    have hloop := processLoop_cons_eq n s b rest _ _ _ _ _ _ h1 h2 h3
    have hfinal : processLoop (n + 1) s (b :: rest)
        = some ((readHeader s (b :: rest)).1, []) := by
      rw [hloop, processLoop_nil n _ (by omega)]
      rfl
    have hcf : consumeFrames (F :: fs') k (b :: rest).length
        = ([], F :: fs', k + (b :: rest).length) :=
      consumeFrames_lt F fs' k _ (by omega)
    rw [hcf]
    refine ⟨(readHeader s (b :: rest)).1, hfinal, ?_⟩
    show Inv (readHeader s (b :: rest)).1 (F :: fs') (k + (b :: rest).length)
    exact Inv.midHeader _ F fs' _ (by omega) (by omega)
      ⟨hrlen, hrreq, hrtake, by rw [hrlt hcase]; exact hsl, by rw [hrbuf]; exact hsb⟩
  · -- the header completes within this chunk
    have hge : 22 ≤ k + (b :: rest).length := by omega
    have hminB : min (k + (b :: rest).length) 22 = 22 := by omega
    rw [hminB] at hrtake hrreq
    obtain ⟨hlenEq, hcmdEq, hcidEq⟩ := hrge hge
    obtain ⟨t, ht⟩ := hpre
    have h22k : 22 - k ≤ (b :: rest).length := by omega
    have hdk : ((encodeFrame F).drop k).length = wireSize F - k := length_drop_encode F hcid k
    have hr1pre : (b :: rest).drop (22 - k) ++ t = F.payload ++ streamBytes fs' := by
      have hstep := congrArg (List.drop (22 - k)) ht
      rw [list_drop_app_le _ _ _ h22k] at hstep
      have hrem : remaining (F :: fs') k = (encodeFrame F).drop k ++ streamBytes fs' := rfl
      rw [hrem, list_drop_app_le _ _ _ (by omega)] at hstep
      rw [list_drop_drop] at hstep
      have hkk : k + (22 - k) = 22 := by omega
      rw [hkk, encodeFrame_drop22 F hcid] at hstep
      exact hstep
    have hr1len : ((b :: rest).drop (22 - k)).length = (b :: rest).length - (22 - k) := by
      simp
    have h1 : readHeader s (b :: rest)
        = ((readHeader s (b :: rest)).1, (b :: rest).drop (22 - k)) := by
      rw [← hr2]
    by_cases hp0 : F.payload.length = 0
    · -- empty body: the message is emitted in the same iteration
      have hpayload : F.payload = [] := List.length_eq_zero.mp hp0
      have hreq0 : (readHeader s (b :: rest)).1.length
          - ((readHeader s (b :: rest)).1.messageOffset : Int) = 0 := by
        rw [hlenEq, hrmo, hp0]
        omega
      have h2 : copyBody (readHeader s (b :: rest)).1 ((b :: rest).drop (22 - k))
          = ((readHeader s (b :: rest)).1, (b :: rest).drop (22 - k)) :=
        copyBody_skip _ _ (le_of_eq hreq0)
      have h3 : maybeEmit (readHeader s (b :: rest)).1
          = (resetReader (readHeader s (b :: rest)).1, [frameToMessage F]) := by
        rw [maybeEmit_emit _ hreq0, hcidEq, hcmdEq, hrbuf, hsb]
        simp [frameToMessage, hpayload]
      have hfr : Fresh (resetReader (readHeader s (b :: rest)).1) :=
        fresh_resetReader _ hrlen
      have hrecpre : (b :: rest).drop (22 - k) <+: remaining fs' 0 := by
        rw [remaining_zero]
        exact ⟨t, by rw [hr1pre, hpayload]; simp⟩
      have hfuel2 : ((b :: rest).drop (22 - k)).length + 1 ≤ n := by
        rw [hr1len]
        omega
      obtain ⟨s2, hrec, hinv2⟩ := ih ((b :: rest).drop (22 - k))
        (resetReader (readHeader s (b :: rest)).1) fs' 0 hfuel2
        (fun G hG => hwf G (by simp [hG])) (Inv.fresh _ _ hfr) hrecpre
      have hloop := processLoop_cons_eq n s b rest _ _ _ _ _ _ h1 h2 h3
      have hfinal : processLoop (n + 1) s (b :: rest)
          = some (s2, frameToMessage F
              :: (consumeFrames fs' 0 ((b :: rest).drop (22 - k)).length).1) := by
        rw [hloop, hrec]
        rfl
      have hsplitlen : (b :: rest).length
          = (wireSize F - k) + ((b :: rest).drop (22 - k)).length := by
        rw [hr1len, hwire]
        omega
      rw [hsplitlen, consumeFrames_split_emit]
      exact ⟨s2, hfinal, hinv2⟩
    · -- non-empty body: copy what is available, emit only if the body completes
      have hreqpos : 0 < (readHeader s (b :: rest)).1.length
          - ((readHeader s (b :: rest)).1.messageOffset : Int) := by
        rw [hlenEq, hrmo]
        omega
      have htoNat : ((readHeader s (b :: rest)).1.length
          - ((readHeader s (b :: rest)).1.messageOffset : Int)).toNat
          = F.payload.length := by
        rw [hlenEq, hrmo]
        omega
      have hcopy := copyBody_run (readHeader s (b :: rest)).1 ((b :: rest).drop (22 - k)) hreqpos
      rw [htoNat, hrbuf, hsb] at hcopy
      simp only [Option.getD_none, List.nil_append] at hcopy
      by_cases hfull : F.payload.length ≤ ((b :: rest).drop (22 - k)).length
      · -- the whole body arrives in this chunk: emit the message
        have hmin : min ((b :: rest).drop (22 - k)).length F.payload.length
            = F.payload.length := Nat.min_eq_right hfull
        rw [hmin] at hcopy
        have htakebody : ((b :: rest).drop (22 - k)).take F.payload.length = F.payload := by
          have hstep := congrArg (List.take F.payload.length) hr1pre
          rw [list_take_app_le _ _ _ hfull] at hstep
          rw [list_take_app_le _ _ _ (le_refl _)] at hstep
          rw [hstep]
          simp
        rw [htakebody] at hcopy
        have hreqz : ({ (readHeader s (b :: rest)).1 with
              messageBuffer := some F.payload
              messageOffset := (readHeader s (b :: rest)).1.messageOffset + F.payload.length }
            : ReaderState).length
            - ((({ (readHeader s (b :: rest)).1 with
              messageBuffer := some F.payload
              messageOffset := (readHeader s (b :: rest)).1.messageOffset + F.payload.length }
            : ReaderState).messageOffset : Nat) : Int) = 0 := by
          show (readHeader s (b :: rest)).1.length
            - (((readHeader s (b :: rest)).1.messageOffset + F.payload.length : Nat) : Int) = 0
          rw [hlenEq, hrmo]
          omega
        have h3 : maybeEmit { (readHeader s (b :: rest)).1 with
              messageBuffer := some F.payload
              messageOffset := (readHeader s (b :: rest)).1.messageOffset + F.payload.length }
            = (resetReader { (readHeader s (b :: rest)).1 with
                messageBuffer := some F.payload
                messageOffset := (readHeader s (b :: rest)).1.messageOffset + F.payload.length },
               [frameToMessage F]) := by
          rw [maybeEmit_emit _ hreqz]
          simp [frameToMessage, hcidEq, hcmdEq]
        have hfr : Fresh (resetReader { (readHeader s (b :: rest)).1 with
            messageBuffer := some F.payload
            messageOffset := (readHeader s (b :: rest)).1.messageOffset + F.payload.length }) :=
          fresh_resetReader _ hrlen
        have hdroptail : ((b :: rest).drop (22 - k)).drop F.payload.length ++ t
            = streamBytes fs' := by
          have hstep := congrArg (List.drop F.payload.length) hr1pre
          rw [list_drop_app_le _ _ _ hfull] at hstep
          rw [list_drop_app_ge F.payload _ F.payload.length (le_refl _)] at hstep
          simpa using hstep
        have hr2len : (((b :: rest).drop (22 - k)).drop F.payload.length).length
            = ((b :: rest).drop (22 - k)).length - F.payload.length := by
          simp
          omega
        have hfuel2 : (((b :: rest).drop (22 - k)).drop F.payload.length).length + 1 ≤ n := by
          rw [hr2len, hr1len]
          omega
        obtain ⟨s2, hrec, hinv2⟩ := ih (((b :: rest).drop (22 - k)).drop F.payload.length)
          (resetReader { (readHeader s (b :: rest)).1 with
            messageBuffer := some F.payload
            messageOffset := (readHeader s (b :: rest)).1.messageOffset + F.payload.length })
          fs' 0 hfuel2 (fun G hG => hwf G (by simp [hG])) (Inv.fresh _ _ hfr)
          (by rw [remaining_zero]; exact ⟨t, hdroptail⟩)
        have hloop := processLoop_cons_eq n s b rest _ _ _ _ _ _ h1 hcopy h3
        have hfinal : processLoop (n + 1) s (b :: rest)
            = some (s2, frameToMessage F :: (consumeFrames fs' 0
                (((b :: rest).drop (22 - k)).drop F.payload.length).length).1) := by
          rw [hloop, hrec]
          rfl
        have hsplitlen : (b :: rest).length
            = (wireSize F - k) + (((b :: rest).drop (22 - k)).drop F.payload.length).length := by
          rw [hr2len, hr1len, hwire]
          omega
        rw [hsplitlen, consumeFrames_split_emit]
        exact ⟨s2, hfinal, hinv2⟩
      · -- the chunk ends inside the body: buffer it and wait for more bytes
        have hlt : ((b :: rest).drop (22 - k)).length < F.payload.length := by omega
        have hmin : min ((b :: rest).drop (22 - k)).length F.payload.length
            = ((b :: rest).drop (22 - k)).length := Nat.min_eq_left (by omega)
        rw [hmin] at hcopy
        rw [List.take_length, List.drop_length] at hcopy
        have htakebody : ((b :: rest).drop (22 - k)).take ((b :: rest).drop (22 - k)).length
            = F.payload.take ((b :: rest).drop (22 - k)).length := by
          have hstep := congrArg (List.take ((b :: rest).drop (22 - k)).length) hr1pre
          rw [list_take_app_le _ _ _ (le_refl _)] at hstep
          rw [list_take_app_le _ _ _ (by omega)] at hstep
          exact hstep
        have hbodypart : (b :: rest).drop (22 - k)
            = F.payload.take ((b :: rest).drop (22 - k)).length := by
          rw [← htakebody, List.take_length]
        have h3 : maybeEmit { (readHeader s (b :: rest)).1 with
              messageBuffer := some ((b :: rest).drop (22 - k))
              messageOffset := (readHeader s (b :: rest)).1.messageOffset
                + ((b :: rest).drop (22 - k)).length }
            = ({ (readHeader s (b :: rest)).1 with
                messageBuffer := some ((b :: rest).drop (22 - k))
                messageOffset := (readHeader s (b :: rest)).1.messageOffset
                  + ((b :: rest).drop (22 - k)).length }, []) := by
          apply maybeEmit_skip
          show (readHeader s (b :: rest)).1.length
            - (((readHeader s (b :: rest)).1.messageOffset
              + ((b :: rest).drop (22 - k)).length : Nat) : Int) ≠ 0
          rw [hlenEq, hrmo]
          omega
        have hloop := processLoop_cons_eq n s b rest _ _ _ _ _ _ h1 hcopy h3
        have hfinal : processLoop (n + 1) s (b :: rest)
            = some ({ (readHeader s (b :: rest)).1 with
                messageBuffer := some ((b :: rest).drop (22 - k))
                messageOffset := (readHeader s (b :: rest)).1.messageOffset
                  + ((b :: rest).drop (22 - k)).length }, []) := by
          rw [hloop, processLoop_nil n _ (by omega)]
          rfl
        have hcf : consumeFrames (F :: fs') k (b :: rest).length
            = ([], F :: fs', k + (b :: rest).length) := by
          apply consumeFrames_lt
          rw [hwire]
          omega
        rw [hcf]
        refine ⟨_, hfinal, ?_⟩
        show Inv { (readHeader s (b :: rest)).1 with
            messageBuffer := some ((b :: rest).drop (22 - k))
            messageOffset := (readHeader s (b :: rest)).1.messageOffset
              + ((b :: rest).drop (22 - k)).length } (F :: fs') (k + (b :: rest).length)
        apply Inv.midBody _ F fs' _ (by omega) (by rw [hwire]; omega)
        refine ⟨hrlen, ?_, hlenEq, hcmdEq, hcidEq, ?_, ?_⟩
        · show (readHeader s (b :: rest)).1.headerBytesRequired = 0
          rw [hrreq]
        · show (readHeader s (b :: rest)).1.messageOffset
            + ((b :: rest).drop (22 - k)).length = (k + (b :: rest).length) - SIZE_UINT_32
          rw [hrmo, hH18, hS4, hr1len]
          omega
        · show (some ((b :: rest).drop (22 - k))).getD []
            = F.payload.take ((k + (b :: rest).length) - MESSAGE_MIN_SIZE)
          rw [Option.getD_some, hM22]
          rw [hbodypart, hr1len]
          congr 1
          omega

/-- One iteration of the outer loop from a mid-body state: the header loop is
a no-op, the body copy takes as many payload bytes as the chunk offers, and
the message is emitted exactly when the body completes. -/
theorem midBody_step
    (n : Nat)
    (ih : ∀ (c : List Byte) (s : ReaderState) (fs : List Frame) (k : Nat),
      c.length + 1 ≤ n → (∀ F ∈ fs, WFFrame F) → Inv s fs k → c <+: remaining fs k →
      ∃ s2, processLoop n s c = some (s2, (consumeFrames fs k c.length).1) ∧
        Inv s2 (consumeFrames fs k c.length).2.1 (consumeFrames fs k c.length).2.2)
    (b : Byte) (rest : List Byte) (s : ReaderState) (F : Frame) (fs' : List Frame) (k : Nat)
    (hfuel : (b :: rest).length + 1 ≤ n + 1)
    (hwf : ∀ G ∈ F :: fs', WFFrame G)
    (hk22 : 22 ≤ k) (hkw : k < wireSize F)
    (hMB : MidBody s F k)
    (hpre : (b :: rest) <+: remaining (F :: fs') k) :
    ∃ s2, processLoop (n + 1) s (b :: rest)
        = some (s2, (consumeFrames (F :: fs') k (b :: rest).length).1) ∧
      Inv s2 (consumeFrames (F :: fs') k (b :: rest).length).2.1
        (consumeFrames (F :: fs') k (b :: rest).length).2.2 := by
  obtain ⟨hbl, hb0, hlen, hcmd, hcidE, hmo, hbuf⟩ := hMB
  have hL : (b :: rest).length = rest.length + 1 := rfl
  have hwfF : WFFrame F := hwf F (by simp)
  have hcid := hwfF.2.2.1
  have hH18 : HEADER_LENGTH = 18 := by decide
  have hM22 : MESSAGE_MIN_SIZE = 22 := by decide
  have hS4 : SIZE_UINT_32 = 4 := by decide
  have hwire : wireSize F = 22 + F.payload.length := by
    rw [wireSize, hM22]
  have hkp : k < 22 + F.payload.length := by rw [hwire] at hkw; exact hkw
  have h1 : readHeader s (b :: rest) = (s, b :: rest) := readHeader_done _ _ hb0
  obtain ⟨t, ht⟩ := hpre
  have hEdrop : (encodeFrame F).drop k = F.payload.drop (k - 22) := by
    have hsplit : (encodeFrame F).drop k = ((encodeFrame F).drop 22).drop (k - 22) := by
      rw [list_drop_drop]
      congr 1
      omega
    rw [hsplit, encodeFrame_drop22 F hcid]
  have ht2 : (b :: rest) ++ t = F.payload.drop (k - 22) ++ streamBytes fs' := by
    have hrem : remaining (F :: fs') k = (encodeFrame F).drop k ++ streamBytes fs' := rfl
    rw [hrem, hEdrop] at ht
    exact ht
  have hpdlen : (F.payload.drop (k - 22)).length = wireSize F - k := by
    simp only [List.length_drop]
    rw [hwire]
    omega
  have hreqpos : 0 < s.length - (s.messageOffset : Int) := by
    rw [hlen, hmo, hS4, hH18]
    omega
  have htoNat : (s.length - (s.messageOffset : Int)).toNat = wireSize F - k := by
    rw [hlen, hmo, hS4, hH18, hwire]
    omega
  have hcopy := copyBody_run s (b :: rest) hreqpos
  rw [htoNat] at hcopy
  have htake : ∀ n0, n0 ≤ (b :: rest).length → n0 ≤ wireSize F - k →
      (b :: rest).take n0 = (F.payload.drop (k - 22)).take n0 := by
    intro n0 ha hb2
    have hstep := congrArg (List.take n0) ht2
    rw [list_take_app_le _ _ _ ha] at hstep
    rw [list_take_app_le _ _ _ (by rw [hpdlen]; exact hb2)] at hstep
    exact hstep
  by_cases hfull : wireSize F - k ≤ (b :: rest).length
  · -- the rest of the body fits into this chunk: complete the frame
    have hmin : min (b :: rest).length (wireSize F - k) = wireSize F - k :=
      Nat.min_eq_right hfull
    rw [hmin] at hcopy
    have htk : (b :: rest).take (wireSize F - k) = F.payload.drop (k - 22) := by
      rw [htake (wireSize F - k) hfull (le_refl _)]
      exact list_take_all _ _ hpdlen
    rw [htk] at hcopy
    have hbuffull : s.messageBuffer.getD [] ++ F.payload.drop (k - 22) = F.payload := by
      rw [hbuf, hM22]
      exact List.take_append_drop _ _
    rw [hbuffull] at hcopy
    have hreqz : ({ s with
          messageBuffer := some F.payload
          messageOffset := s.messageOffset + (wireSize F - k) } : ReaderState).length
        - ((({ s with
          messageBuffer := some F.payload
          messageOffset := s.messageOffset + (wireSize F - k) }
          : ReaderState).messageOffset : Nat) : Int) = 0 := by
      show s.length - ((s.messageOffset + (wireSize F - k) : Nat) : Int) = 0
      rw [hlen, hmo, hS4, hH18, hwire]
      omega
    have h3 : maybeEmit { s with
          messageBuffer := some F.payload
          messageOffset := s.messageOffset + (wireSize F - k) }
        = (resetReader { s with
            messageBuffer := some F.payload
            messageOffset := s.messageOffset + (wireSize F - k) },
           [frameToMessage F]) := by
      rw [maybeEmit_emit _ hreqz]
      simp [frameToMessage, hcidE, hcmd]
    have hfr : Fresh (resetReader { s with
        messageBuffer := some F.payload
        messageOffset := s.messageOffset + (wireSize F - k) }) :=
      fresh_resetReader _ hbl
    have hdroptail : (b :: rest).drop (wireSize F - k) ++ t = streamBytes fs' := by
      have hstep := congrArg (List.drop (wireSize F - k)) ht2
      rw [list_drop_app_le _ _ _ hfull] at hstep
      rw [list_drop_app_ge _ _ _ (by rw [hpdlen])] at hstep
      rw [hpdlen] at hstep
      simpa using hstep
    have hr2len : ((b :: rest).drop (wireSize F - k)).length
        = (b :: rest).length - (wireSize F - k) := by
      simp
    have hfuel2 : ((b :: rest).drop (wireSize F - k)).length + 1 ≤ n := by
      rw [hr2len]
      omega
    obtain ⟨s2, hrec, hinv2⟩ := ih ((b :: rest).drop (wireSize F - k))
      (resetReader { s with
        messageBuffer := some F.payload
        messageOffset := s.messageOffset + (wireSize F - k) })
      fs' 0 hfuel2 (fun G hG => hwf G (by simp [hG])) (Inv.fresh _ _ hfr)
      (by rw [remaining_zero]; exact ⟨t, hdroptail⟩)
    have hloop := processLoop_cons_eq n s b rest _ _ _ _ _ _ h1 hcopy h3
    have hfinal : processLoop (n + 1) s (b :: rest)
        = some (s2, frameToMessage F :: (consumeFrames fs' 0
            ((b :: rest).drop (wireSize F - k)).length).1) := by
      rw [hloop, hrec]
      rfl
    have hsplitlen : (b :: rest).length
        = (wireSize F - k) + ((b :: rest).drop (wireSize F - k)).length := by
      rw [hr2len]
      omega
    rw [hsplitlen, consumeFrames_split_emit]
    exact ⟨s2, hfinal, hinv2⟩
  · -- the chunk ends inside the body: extend the buffer, no message yet
    have hlt : (b :: rest).length < wireSize F - k := by omega
    have hmin : min (b :: rest).length (wireSize F - k) = (b :: rest).length :=
      Nat.min_eq_left (by omega)
    rw [hmin] at hcopy
    rw [List.take_length, List.drop_length] at hcopy
    have hbufnew : s.messageBuffer.getD [] ++ (b :: rest)
        = F.payload.take ((k - 22) + (b :: rest).length) := by
      rw [hbuf, hM22]
      have htk := htake (b :: rest).length (le_refl _) (by omega)
      rw [List.take_length] at htk
      rw [htk, ← list_take_add]
      congr 1
      simp only [List.length_take, List.length_drop]
      omega
    have h3 : maybeEmit { s with
          messageBuffer := some (s.messageBuffer.getD [] ++ (b :: rest))
          messageOffset := s.messageOffset + (b :: rest).length }
        = ({ s with
            messageBuffer := some (s.messageBuffer.getD [] ++ (b :: rest))
            messageOffset := s.messageOffset + (b :: rest).length }, []) := by
      apply maybeEmit_skip
      show s.length - ((s.messageOffset + (b :: rest).length : Nat) : Int) ≠ 0
      rw [hlen, hmo, hS4, hH18]
      rw [hwire] at hlt
      omega
    have hloop := processLoop_cons_eq n s b rest _ _ _ _ _ _ h1 hcopy h3
    have hfinal : processLoop (n + 1) s (b :: rest)
        = some ({ s with
            messageBuffer := some (s.messageBuffer.getD [] ++ (b :: rest))
            messageOffset := s.messageOffset + (b :: rest).length }, []) := by
      rw [hloop, processLoop_nil n _ (by omega)]
      rfl
    have hcf := consumeFrames_lt F fs' k (b :: rest).length hlt
    rw [hcf]
    refine ⟨_, hfinal, ?_⟩
    show Inv { s with
        messageBuffer := some (s.messageBuffer.getD [] ++ (b :: rest))
        messageOffset := s.messageOffset + (b :: rest).length }
      (F :: fs') (k + (b :: rest).length)
    apply Inv.midBody _ F fs' _ (by omega) (by omega)
    refine ⟨hbl, hb0, hlen, hcmd, hcidE, ?_, ?_⟩
    · show s.messageOffset + (b :: rest).length = (k + (b :: rest).length) - SIZE_UINT_32
      rw [hmo, hS4]
      omega
    · show (some (s.messageBuffer.getD [] ++ (b :: rest))).getD []
        = F.payload.take ((k + (b :: rest).length) - MESSAGE_MIN_SIZE)
      rw [Option.getD_some, hbufnew, hM22]
      congr 1
      omega

/-- Main decoder lemma: from any state satisfying the invariant, feeding a
chunk that is a prefix of the remaining stream produces (with fuel one more
than the chunk length) exactly the messages of the frames completed inside
the chunk, and leaves a state satisfying the invariant at the new position. -/
theorem processLoop_spec :
    ∀ (fuel : Nat) (c : List Byte) (s : ReaderState) (fs : List Frame) (k : Nat),
      c.length + 1 ≤ fuel →
      (∀ F ∈ fs, WFFrame F) →
      Inv s fs k →
      c <+: remaining fs k →
      ∃ s2, processLoop fuel s c = some (s2, (consumeFrames fs k c.length).1) ∧
        Inv s2 (consumeFrames fs k c.length).2.1 (consumeFrames fs k c.length).2.2 := by
  intro fuel
  induction fuel with
  | zero =>
    intro c s fs k hfuel _ _ _
    omega
  | succ n ih =>
    intro c s fs k hfuel hwf hinv hpre
    cases c with
    | nil =>
      simp only [List.length_nil]
      rw [consumeFrames_zero fs k (inv_posOk s fs k hinv)]
      exact ⟨s, processLoop_nil (n + 1) s (by omega), hinv⟩
    | cons b rest =>
      cases fs with
      | nil =>
        obtain ⟨t, ht⟩ := hpre
        simp [remaining] at ht
      | cons F fs2 =>
        cases hinv with
        | fresh zfs hfr =>
          exact headerPhase_step n ih b rest s F fs2 0 hfuel hwf (by omega)
            (fresh_headerPhase s F hfr) hpre
        | midHeader zF zfs zk h1 h2 h3 =>
          exact headerPhase_step n ih b rest s F fs2 _ hfuel hwf h2 h3 hpre
        | midBody zF zfs zk h1 h2 h3 =>
          exact midBody_step n ih b rest s F fs2 _ hfuel hwf h1 h2 h3 hpre

theorem inv_nil_fresh (s : ReaderState) (k : Nat) (h : Inv s [] k) : Fresh s := by
  cases h with
  | fresh zfs hfr => exact hfr

/-- Feeding any chunking of the byte stream of well-formed frames to the
decoder, chunk by chunk, succeeds and emits exactly the frames' messages. -/
theorem processChunks_spec :
    ∀ (chunks : List (List Byte)) (s : ReaderState) (fs : List Frame) (k : Nat),
      (∀ F ∈ fs, WFFrame F) → Inv s fs k → PosOk fs k →
      concatChunks chunks = remaining fs k →
      ∃ s2, processChunks s chunks = some (s2, fs.map frameToMessage) := by
  intro chunks
  induction chunks with
  | nil =>
    intro s fs k hwf hinv hpos hcat
    have hfs : fs = [] := remaining_eq_nil fs k hwf hpos (by rw [← hcat]; rfl)
    subst hfs
    exact ⟨s, rfl⟩
  | cons c cs ih =>
    intro s fs k hwf hinv hpos hcat
    have hpre : c <+: remaining fs k := ⟨concatChunks cs, hcat⟩
    obtain ⟨s1, hp1, hinv1⟩ :=
      processLoop_spec (c.length + 1) c s fs k (le_refl _) hwf hinv hpre
    have hlen : c.length ≤ (remaining fs k).length := by
      rw [← hcat]
      show c.length ≤ (c ++ concatChunks cs).length
      simp
    obtain ⟨hpos2, hrem2⟩ := consumeFrames_pos_remaining fs k c.length hwf hpos hlen
    have hwf2 : ∀ G ∈ (consumeFrames fs k c.length).2.1, WFFrame G :=
      fun G hG => hwf G (consumeFrames_mem fs k c.length G hG)
    have hcat2 : concatChunks cs
        = remaining (consumeFrames fs k c.length).2.1 (consumeFrames fs k c.length).2.2 := by
      rw [hrem2, ← hcat]
      show concatChunks cs = (c ++ concatChunks cs).drop c.length
      exact (list_drop_app_full c (concatChunks cs)).symm
    obtain ⟨s2, hp2⟩ := ih s1 _ _ hwf2 hinv1 hpos2 hcat2
    refine ⟨s2, ?_⟩
    have hproc : process s c = some (s1, (consumeFrames fs k c.length).1) := hp1
    have hstep : processChunks s (c :: cs)
        = some (s2, (consumeFrames fs k c.length).1
            ++ (consumeFrames fs k c.length).2.1.map frameToMessage) := by
      show (match process s c with
        | none => none
        | some r =>
          match processChunks r.1 cs with
          | none => none
          | some r2 => some (r2.1, r.2 ++ r2.2)) = _
      rw [hproc]
      show (match processChunks s1 cs with
        | none => none
        | some r2 => some (r2.1, (consumeFrames fs k c.length).1 ++ r2.2)) = _
      rw [hp2]
    rw [hstep, consumeFrames_messages fs k c.length hwf hpos hlen]

/-- C1. Chunking independence of the frame decoder: for every finite sequence
of well-formed frames and every partition of the concatenation of their
encoded bytes into chunks, feeding the chunks sequentially to
`MessageReader.process` emits exactly the frames' messages, in order, each
with its original conversation id, command and payload, regardless of where
the chunk boundaries fall. -/
theorem c1_chunking_independence (frames : List Frame) (chunks : List (List Byte))
    (hwf : ∀ F ∈ frames, WFFrame F)
    (hcat : concatChunks chunks = streamBytes frames) :
    (processChunks initialReaderState chunks).map Prod.snd
      = some (frames.map frameToMessage) := by
  obtain ⟨s2, h⟩ := processChunks_spec chunks initialReaderState frames 0 hwf
    (Inv.fresh _ _ fresh_initial) (posOk_zero frames)
    (by rw [remaining_zero]; exact hcat)
  rw [h]
  rfl

/-- Witness for C1 at a concrete input: one 25-byte frame (3-byte payload)
followed by one 22-byte frame (empty payload), cut into chunks of 5, 21 and
21 bytes, so the first frame spans two chunks and the second chunk holds the
end of frame one plus most of frame two. -/
theorem c1_chunking_independence_witness :
    (processChunks initialReaderState
        [[21, 0, 0, 0, 3], [0, 10, 11, 12, 13, 14, 15, 16, 17, 18, 19, 20, 21, 22, 23, 24,
          25, 7, 8, 9, 18], [0, 0, 0, 4, 1, 25, 24, 23, 22, 21, 20, 19, 18, 17, 16, 15, 14,
          13, 12, 11, 10]]).map Prod.snd
      = some [⟨[10, 11, 12, 13, 14, 15, 16, 17, 18, 19, 20, 21, 22, 23, 24, 25], 3, [7, 8, 9]⟩,
              ⟨[25, 24, 23, 22, 21, 20, 19, 18, 17, 16, 15, 14, 13, 12, 11, 10], 4, []⟩] := by
  have h := c1_chunking_independence
    [⟨3, 0, [10, 11, 12, 13, 14, 15, 16, 17, 18, 19, 20, 21, 22, 23, 24, 25], [7, 8, 9]⟩,
     ⟨4, 1, [25, 24, 23, 22, 21, 20, 19, 18, 17, 16, 15, 14, 13, 12, 11, 10], []⟩]
    [[21, 0, 0, 0, 3], [0, 10, 11, 12, 13, 14, 15, 16, 17, 18, 19, 20, 21, 22, 23, 24,
      25, 7, 8, 9, 18], [0, 0, 0, 4, 1, 25, 24, 23, 22, 21, 20, 19, 18, 17, 16, 15, 14,
      13, 12, 11, 10]]
    (by decide) (by decide)
  exact h

/-- The reader state reached after parsing a 22-byte header of zero bytes:
the header is complete and `length = 0`, so
`message_bytes_required = 0 - 18` is negative, which disables both the body
copy and the emit check while `chunk_offset` no longer advances. -/
def stuckReaderState : ReaderState :=
  { headerBytes := List.replicate 22 0
    headerBytesRequired := 0
    length := 0
    cmd := 0
    flags := 0
    messageOffset := 18
    conversationId := some (List.replicate 16 0)
    messageBuffer := none }

/-- A 22-byte frame header whose little-endian length field is 0 (< 18),
followed by one more byte. -/
def lengthZeroHeaderChunk : List Byte := List.replicate 23 0

theorem processLoop_stuck_aux :
    ∀ n : Nat, processLoop n stuckReaderState [0] = none := by
  intro n
  induction n with
  | zero => rfl
  | succ m ih =>
    rw [processLoop_cons_eq m stuckReaderState 0 [] stuckReaderState stuckReaderState
      stuckReaderState [0] [0] []
      (readHeader_done _ _ rfl) (copyBody_skip _ _ (by decide)) (maybeEmit_skip _ (by decide))]
    rw [ih]

/-- C2 (code behaviour at the failing input). On a received frame whose
length field is below 18, `MessageReader.process` neither emits a message
nor raises: its outer loop stops consuming input and spins forever. In the
fuel-indexed embedding, no amount of fuel makes the loop terminate on a
23-byte chunk carrying a zero length field, so the Python loop, whose only
exit is chunk exhaustion, never terminates — the error is never surfaced to
the Connector. -/
theorem c2_short_length_frame_loops_forever :
    (∀ fuel : Nat, processLoop fuel initialReaderState lengthZeroHeaderChunk = none) ∧
    process initialReaderState lengthZeroHeaderChunk = none := by
  constructor
  · intro fuel
    cases fuel with
    | zero => rfl
    | succ m =>
      show processLoop (m + 1) initialReaderState (0 :: List.replicate 22 0) = none
      rw [processLoop_cons_eq m initialReaderState 0 (List.replicate 22 0)
        stuckReaderState stuckReaderState stuckReaderState [0] [0] []
        (by decide) (by decide) (by decide)]
      rw [processLoop_stuck_aux m]
  · show processLoop (lengthZeroHeaderChunk.length + 1) initialReaderState
      lengthZeroHeaderChunk = none
    show processLoop 24 initialReaderState (0 :: List.replicate 22 0) = none
    rw [processLoop_cons_eq 23 initialReaderState 0 (List.replicate 22 0)
      stuckReaderState stuckReaderState stuckReaderState [0] [0] []
      (by decide) (by decide) (by decide)]
    rw [processLoop_stuck_aux 23]

/-- C10. A frame whose length field is exactly 18 (a header with no body
bytes) makes the decoder emit an `InboundMessage` with the empty payload,
and the reader then resets: all 22 header bytes are required again, no body
buffer survives, and the stale `length` cannot trigger a copy or an emit,
so the next byte is read as the start of a fresh 22-byte header. -/
theorem c10_empty_body_frame (F : Frame) (hwf : WFFrame F) (hp : F.payload = []) :
    ∃ s2, process initialReaderState (encodeFrame F)
        = some (s2, [⟨F.conversationId, (F.cmd : Int), ([] : List Byte)⟩]) ∧
      s2.headerBytesRequired = MESSAGE_MIN_SIZE ∧
      s2.messageBuffer = none ∧
      s2.headerBytes.length = 22 ∧
      s2.length ≤ 17 := by
  have hcid := hwf.2.2.1
  have hpre : encodeFrame F <+: remaining [F] 0 := ⟨[], by rw [remaining_zero]; simp [streamBytes]⟩
  obtain ⟨s2, hp1, hinv1⟩ := processLoop_spec ((encodeFrame F).length + 1) (encodeFrame F)
    initialReaderState [F] 0 (le_refl _) (by intro G hG; simp at hG; rw [hG]; exact hwf)
    (Inv.fresh _ _ fresh_initial) hpre
  have hlenE : (encodeFrame F).length = (wireSize F - 0) + 0 := by
    rw [encodeFrame_length F hcid, wireSize, MESSAGE_MIN_SIZE, SIZE_UINT_32, HEADER_LENGTH]
    omega
  rw [hlenE, consumeFrames_split_emit] at hp1 hinv1
  have hmsg : frameToMessage F
      = (⟨F.conversationId, (F.cmd : Int), ([] : List Byte)⟩ : InboundMessage) := by
    rw [frameToMessage, hp]
  have hfr : Fresh s2 := inv_nil_fresh s2 _ hinv1
  refine ⟨s2, ?_, hfr.2.1, hfr.2.2.2, hfr.1, hfr.2.2.1⟩
  show processLoop ((encodeFrame F).length + 1) initialReaderState (encodeFrame F) = _
  rw [hlenE]
  rw [hp1, ← hmsg]
  rfl

/-- Witness for C10 at a concrete empty-payload frame. -/
theorem c10_empty_body_frame_witness :
    ∃ s2, process initialReaderState
        (encodeFrame ⟨5, 1, [1, 2, 3, 4, 5, 6, 7, 8, 9, 10, 11, 12, 13, 14, 15, 16], []⟩)
        = some (s2, [⟨[1, 2, 3, 4, 5, 6, 7, 8, 9, 10, 11, 12, 13, 14, 15, 16], (5 : Int),
            ([] : List Byte)⟩]) ∧
      s2.headerBytesRequired = MESSAGE_MIN_SIZE ∧
      s2.messageBuffer = none ∧
      s2.headerBytes.length = 22 ∧
      s2.length ≤ 17 :=
  c10_empty_body_frame ⟨5, 1, [1, 2, 3, 4, 5, 6, 7, 8, 9, 10, 11, 12, 13, 14, 15, 16], []⟩
    (by decide) rfl

/-! ## Outbound messages, conversations and the heartbeat pacemaker -/

/-- An `msg.OutboundMessage`: conversation id (16 `bytes_le` bytes), command
code and payload, as placed on the outbound queue. -/
structure OutboundMessage where
  conversationId : List Byte
  command : Nat
  payload : List Byte
deriving DecidableEq, Repr

/-- Modelled from the spec: the capability surface of a
`photonpump.conversations.Conversation` that the connection engine uses
(spec section 3) — its id, whether it is one-way, and the frame its
`start()` places on the outbound queue. conversations.py is not under
src/. -/
structure Conversation where
  conversationId : List Byte
  oneWay : Bool
  startMessage : OutboundMessage
deriving DecidableEq, Repr

/-- Modelled from the spec: `msg.TcpCommand.HeartbeatRequest`. The numeric
command codes live in photonpump/messages.py, which is not under src/; only
the distinctness of the two heartbeat codes matters to the routing logic. -/
def heartbeatRequestCmd : Nat := 1

/-- Modelled from the spec: `msg.TcpCommand.HeartbeatResponse`. -/
def heartbeatResponseCmd : Nat := 2

/-- Modelled from the spec: the frame emitted by starting
`convo.Heartbeat(conversation_id)` — spec section 4.2: a
`HeartbeatResponse` bearing the same conversation id. -/
def heartbeatReply (cid : List Byte) : OutboundMessage :=
  ⟨cid, heartbeatResponseCmd, []⟩

/-- Modelled from the spec: the `convo.Heartbeat` conversation as a
`Conversation` capability — id as given, no reply expected, `start()` emits
the heartbeat response. -/
def heartbeatConversation (cid : List Byte) : Conversation :=
  ⟨cid, true, heartbeatReply cid⟩

/-- The `PaceMaker` state of connection.py (lines 260-323): the fixed
heartbeat conversation id and the pending-response future `_fut`
(`none` = no future, `some none` = pending, `some (some id)` = resolved). -/
structure PaceMaker where
  heartbeatId : List Byte
  fut : Option (Option (List Byte))
deriving DecidableEq, Repr

/-- Embeds `PaceMaker.handle_request` (connection.py lines 280-284): build
`convo.Heartbeat(message.conversation_id)` and `start` it onto the output
queue. The pacemaker state is untouched. -/
def handleRequest (pm : PaceMaker) (outQ : List OutboundMessage) (m : InboundMessage) :
    PaceMaker × List OutboundMessage :=
  (pm, outQ ++ [heartbeatReply m.conversationId])

/-- Embeds `PaceMaker.handle_response` (connection.py lines 286-289): only a
response bearing the pacemaker's own heartbeat id resolves the pending
future; any other conversation id leaves everything untouched. -/
def handleResponse (pm : PaceMaker) (m : InboundMessage) : PaceMaker :=
  if m.conversationId = pm.heartbeatId then
    match pm.fut with
    | none => pm
    | some _ => { pm with fut := some (some m.conversationId) }
  else pm

/-- The routing connection.py's `MessageReader.process` applies to each
emitted message (lines 471-476): `HeartbeatRequest` to
`pacemaker.handle_request`, `HeartbeatResponse` to
`pacemaker.handle_response`, everything else onto the inbound queue.
Returns the pacemaker state, the inbound queue and the outbound queue after
the message is routed. -/
def routeMessage (pm : PaceMaker) (inQ : List InboundMessage)
    (outQ : List OutboundMessage) (m : InboundMessage) :
    PaceMaker × List InboundMessage × List OutboundMessage :=
  if m.command = (heartbeatRequestCmd : Int) then
    ((handleRequest pm outQ m).1, inQ, (handleRequest pm outQ m).2)
  else if m.command = (heartbeatResponseCmd : Int) then
    (handleResponse pm m, inQ, outQ)
  else
    (pm, inQ ++ [m], outQ)

/-! ## The two dispatchers -/

/-- Python dict assignment `map[key] = value`: replace in place when the key
is present, append otherwise (insertion order preserved, as in a dict). -/
def upsertConvo (m : List (List Byte × Conversation)) (k : List Byte) (v : Conversation) :
    List (List Byte × Conversation) :=
  if m.any (fun p => p.1 == k) then
    m.map (fun p => if p.1 == k then (k, v) else p)
  else m ++ [(k, v)]

/-- State of `MessageDispatcher` of connection.py (lines 486-540): the conversation
map and `self.output` (`none` while no transport is attached, otherwise the
contents of the attached outbound queue). -/
structure Dispatcher1 where
  activeConversations : List (List Byte × Conversation)
  output : Option (List OutboundMessage)
deriving DecidableEq, Repr

/-- Embeds `MessageDispatcher.start_conversation` (connection.py lines 493-506):
track the conversation unless it is one-way; if an output queue is attached,
`start()` the conversation onto it immediately. -/
def startConversation (d : Dispatcher1) (c : Conversation) : Dispatcher1 :=
  let d1 := if c.oneWay then d
    else { d with
      activeConversations := upsertConvo d.activeConversations c.conversationId c }
  match d1.output with
  | none => d1
  | some q => { d1 with output := some (q ++ [c.startMessage]) }

/-- The start frames of the tracked conversations, in map order. -/
def startFrames (m : List (List Byte × Conversation)) : List OutboundMessage :=
  m.map (fun p => p.2.startMessage)

/-- Embeds `MessageDispatcher.write_to` (connection.py lines 508-516): adopt the
new output queue and re-`start()` every tracked conversation onto it. -/
def writeTo (d : Dispatcher1) (q : List OutboundMessage) : Dispatcher1 :=
  { d with output := some (q ++ startFrames d.activeConversations) }

/-- State of `MessageDispatcher` of connection2.py (lines 521-539): conversation map,
output queue and the `_connected` flag. -/
structure Dispatcher2 where
  activeConversations : List (List Byte × Conversation)
  output : List OutboundMessage
  connected : Bool
deriving DecidableEq, Repr

/-- Embeds `MessageDispatcher.enqueue_conversation` (connection2.py lines 541-551):
always insert the conversation into the map (there is no one-way check), and
push its start frame when connected. -/
def enqueueConversation (d : Dispatcher2) (c : Conversation) : Dispatcher2 :=
  let d1 := { d with
    activeConversations := upsertConvo d.activeConversations c.conversationId c }
  if d1.connected then { d1 with output := d1.output ++ [c.startMessage] } else d1

/-- The head of `MessageDispatcher._process_messages` (connection2.py lines
566-570): set `_connected`, then re-emit every tracked conversation's start
frame onto the output queue. -/
def dispatcherReplay2 (d : Dispatcher2) : Dispatcher2 :=
  { d with connected := true
           output := d.output ++ startFrames d.activeConversations }

/-- The `HeartbeatRequest` branch of `_process_messages` (connection2.py
lines 582-587): the reply is enqueued as a fresh `Heartbeat` conversation
through `enqueue_conversation` — through the dispatcher and into its map. -/
def handleHeartbeatRequest2 (d : Dispatcher2) (cid : List Byte) : Dispatcher2 :=
  enqueueConversation d (heartbeatConversation cid)

/-! ## Connector: heartbeat counting, stop path, connect timeout -/

/-- Enum `ConnectorState` (both files). -/
inductive ConnectorState where
  | Begin
  | Connecting
  | Connected
  | Stopping
  | Stopped
deriving DecidableEq, Repr

/-- Enum `ConnectorCommand` (both files). -/
inductive ConnectorCommand where
  | Connect
  | HandleConnectFailure
  | HandleConnectionOpened
  | HandleConnectionClosed
  | HandleConnectionFailed
  | HandleHeartbeatFailed
  | HandleHeartbeatSuccess
  | HandleConnectorFailed
  | Stop
deriving DecidableEq, Repr

/-- The heartbeat-failure bookkeeping of `Connector`:
`self.heartbeat_failures` plus a ghost count of transport teardowns
(`await self.active_protocol.stop()` in connection.py line 215, or
`self.transport.close()` in connection2.py line 214). -/
structure ConnectorHeartbeatState where
  heartbeatFailures : Nat
  transportTeardowns : Nat
deriving DecidableEq, Repr

/-- Embeds `Connector._on_failed_heartbeat` (connection.py lines 210-216,
connection2.py lines 208-215): increment the failure counter; when it
reaches three, tear the transport down and zero the counter. -/
def onFailedHeartbeat (s : ConnectorHeartbeatState) : ConnectorHeartbeatState :=
  let f := s.heartbeatFailures + 1
  if 3 ≤ f then
    { heartbeatFailures := 0, transportTeardowns := s.transportTeardowns + 1 }
  else { s with heartbeatFailures := f }

/-- Embeds `Connector._on_successful_heartbeat` (connection.py lines 218-220,
connection2.py lines 217-221): zero the failure counter. -/
def onSuccessfulHeartbeat (s : ConnectorHeartbeatState) : ConnectorHeartbeatState :=
  { s with heartbeatFailures := 0 }

/-- Applies `n` consecutive `HandleHeartbeatFailed` commands with no intervening
success. -/
def iterateFailed : Nat → ConnectorHeartbeatState → ConnectorHeartbeatState
  | 0, s => s
  | n + 1, s => iterateFailed n (onFailedHeartbeat s)

/-- The fields of connection.py's `Connector` that `stop` touches, plus the
list of fired `stopped(exn)` events (errors as opaque codes). -/
structure ConnectorStopState where
  state : ConnectorState
  activeProtocol : Bool
  protocolStops : Nat
  runLoopCancelled : Bool
  stoppedEvents : List (Option Nat)
deriving DecidableEq, Repr

/-- The caller-visible result futures of the dispatcher's tracked
conversations: `none` = still pending, `some none` = resolved with a value,
`some (some e)` = failed with error `e`. -/
structure ResultHandles where
  handles : List (List Byte × Option (Option Nat))
deriving DecidableEq, Repr

/-- Embeds `Connector.stop` (connection.py lines 122-131): set `Stopping`, stop the
active protocol if there is one, clear it, cancel the run loop, fire
`stopped(exn)`. -/
def connectorStop (c : ConnectorStopState) (exn : Option Nat) : ConnectorStopState :=
  { state := ConnectorState.Stopping
    activeProtocol := false
    protocolStops := c.protocolStops + (if c.activeProtocol then 1 else 0)
    runLoopCancelled := true
    stoppedEvents := c.stoppedEvents ++ [exn] }

/-- Embeds `Connector._on_connector_failed` (connection.py lines 222-224) acting on
the pair of connector state and dispatcher result futures:
`await self.stop(exn=exn)`. The dispatcher and its result futures are not
touched by any code on this path. -/
def onConnectorFailed (sys : ConnectorStopState × ResultHandles) (e : Nat) :
    ConnectorStopState × ResultHandles :=
  (connectorStop sys.1 (some e), sys.2)

/-- The `Stop` branch of connection2.py's `Connector._run` (lines 257-261):
fire `stopped(data)` and return from the loop. Result futures are not in
scope there at all. -/
def runStopCommand2 (stoppedEvents : List (Option Nat)) (exn : Option Nat) :
    List (Option Nat) × Bool :=
  (stoppedEvents ++ [exn], true)

/-- The delivery property asserted by the claim: every outstanding result
handle has been failed with the terminal error. -/
def allHandlesFailed (rh : ResultHandles) (e : Nat) : Prop :=
  ∀ p ∈ rh.handles, p.2 = some (some e)

instance (rh : ResultHandles) (e : Nat) : Decidable (allHandlesFailed rh e) := by
  unfold allHandlesFailed
  infer_instance

/-- The `connect_timeout=5` default of `Connector.__init__`
(connection.py line 60). -/
def defaultConnectTimeout : Nat := 5

/-- A dial attempt as seen by `_attempt_connect`: at what time (if ever) the
underlying `loop.create_connection` would complete, and whether it would
fail. `completesAt = none` models a dial that never completes. -/
structure DialAttempt where
  completesAt : Option Nat
  failure : Option Nat
deriving DecidableEq, Repr

inductive DialOutcome where
  | opened
  | failed (e : Nat)
  | timedOut
deriving DecidableEq, Repr

/-- The dialing step of connection.py's `_attempt_connect` (lines 139-165):
`asyncio.wait_for(loop.create_connection(...), connect_timeout)` — the
outcome, and the time at which the await returns. A dial that would complete
after the timeout, or never, raises `TimeoutError` at `timeout`. -/
def attemptConnect1 (timeout : Nat) (d : DialAttempt) : DialOutcome × Nat :=
  match d.completesAt with
  | none => (DialOutcome.timedOut, timeout)
  | some t =>
    if t ≤ timeout then
      (match d.failure with
       | some e => DialOutcome.failed e
       | none => DialOutcome.opened, t)
    else (DialOutcome.timedOut, timeout)

/-- The control-queue commands connection.py's `_attempt_connect` enqueues
for the dial outcome: any exception — including `wait_for`'s
`TimeoutError` — is caught by `except Exception` and surfaced as
`HandleConnectFailure`. -/
def attemptConnectInstr1 (timeout : Nat) (d : DialAttempt) : List ConnectorCommand :=
  match (attemptConnect1 timeout d).1 with
  | DialOutcome.opened => []
  | DialOutcome.failed _ => [ConnectorCommand.HandleConnectFailure]
  | DialOutcome.timedOut => [ConnectorCommand.HandleConnectFailure]

/-- The dialing step of connection2.py's `_attempt_connect` (lines 145-165):
`await self.loop.create_connection(...)` with no `wait_for` and no timeout —
the await returns only when, and if, the dial completes; `none` means the
attempt never returns. -/
def attemptConnect2 (d : DialAttempt) : Option (DialOutcome × Nat) :=
  match d.completesAt with
  | none => none
  | some t =>
    some (match d.failure with
          | some e => DialOutcome.failed e
          | none => DialOutcome.opened, t)

/-- The commands connection2's `_attempt_connect` enqueues when the dial
does return: errors are surfaced as `HandleConnectFailure`. -/
def attemptConnectInstr2 (d : DialAttempt) : Option (List ConnectorCommand) :=
  (attemptConnect2 d).map (fun r =>
    match r.1 with
    | DialOutcome.opened => []
    | DialOutcome.failed _ => [ConnectorCommand.HandleConnectFailure]
    | DialOutcome.timedOut => [ConnectorCommand.HandleConnectFailure])

/-! ## Claims about the dispatchers, the pacemaker and the connector -/

theorem countP_eq_one_of_nodup_mem {α : Type} [DecidableEq α] :
    ∀ (l : List α) (a : α), l.Nodup → a ∈ l →
      l.countP (fun x => decide (x = a)) = 1 := by
  intro l
  induction l with
  | nil => intro a _ ha; simp at ha
  | cons b t ih =>
    intro a hnd ha
    rw [List.countP_cons]
    rcases List.mem_cons.mp ha with h1 | h1
    · subst h1
      have hnt : a ∉ t := (List.nodup_cons.mp hnd).1
      have hz : t.countP (fun x => decide (x = a)) = 0 := by
        rw [List.countP_eq_zero]
        intro x hx
        simp only [decide_eq_true_eq]
        intro hxa
        exact hnt (hxa ▸ hx)
      simp [hz]
    · have hba : b ≠ a := by
        intro hba
        exact (List.nodup_cons.mp hnd).1 (hba ▸ h1)
      rw [ih a (List.nodup_cons.mp hnd).2 h1]
      simp [hba]

theorem startFrames_countP (l : List (List Byte × Conversation)) (cid : List Byte)
    (h2 : ∀ p ∈ l, p.2.startMessage.conversationId = p.1) :
    (startFrames l).countP (fun m => decide (m.conversationId = cid))
      = (l.map Prod.fst).countP (fun x => decide (x = cid)) := by
  induction l with
  | nil => rfl
  | cons a t ih =>
    have ha := h2 a (by simp)
    have ht : ∀ p ∈ t, p.2.startMessage.conversationId = p.1 :=
      fun p hp => h2 p (by simp [hp])
    show ((a.2.startMessage) :: startFrames t).countP (fun m => decide (m.conversationId = cid))
      = ((a.1 :: t.map Prod.fst).countP (fun x => decide (x = cid)))
    rw [List.countP_cons, List.countP_cons, ih ht, ha]

/-- C3. On every attach of a new outbound queue after a transport becomes
active, the dispatcher re-emits the `start()` frame of every still-tracked
conversation onto the new outbound queue — exactly once per tracked
conversation per reconnect. Both implementations: connection.py's
`write_to` and connection2.py's `_process_messages` replay loop. -/
theorem c3_replay_on_attach (d : Dispatcher1) (q : List OutboundMessage) (d2 : Dispatcher2)
    (h1 : (d.activeConversations.map Prod.fst).Nodup)
    (h2 : ∀ p ∈ d.activeConversations, p.2.startMessage.conversationId = p.1) :
    (writeTo d q).output = some (q ++ startFrames d.activeConversations) ∧
    (writeTo d q).activeConversations = d.activeConversations ∧
    (dispatcherReplay2 d2).output = d2.output ++ startFrames d2.activeConversations ∧
    (dispatcherReplay2 d2).connected = true ∧
    ∀ p ∈ d.activeConversations,
      (startFrames d.activeConversations).countP
        (fun m => decide (m.conversationId = p.1)) = 1 := by
  refine ⟨rfl, rfl, rfl, rfl, ?_⟩
  intro p hp
  rw [startFrames_countP d.activeConversations p.1 h2]
  exact countP_eq_one_of_nodup_mem _ p.1 h1 (List.mem_map_of_mem Prod.fst hp)

/-- Witness for C3 with one tracked conversation and a non-empty queue. -/
theorem c3_replay_on_attach_witness :
    (writeTo ⟨[([1], ⟨[1], false, ⟨[1], 7, [9]⟩⟩)], none⟩ [⟨[4], 2, []⟩]).output
      = some ([⟨[4], 2, []⟩] ++ startFrames [([1], ⟨[1], false, ⟨[1], 7, [9]⟩⟩)]) ∧
    (dispatcherReplay2 ⟨[([2], ⟨[2], true, ⟨[2], 9, []⟩⟩)], [], false⟩).output
      = [] ++ startFrames [([2], ⟨[2], true, ⟨[2], 9, []⟩⟩)] ∧
    (startFrames [([1], ⟨[1], false, ⟨[1], 7, [9]⟩⟩)]).countP
      (fun m => decide (m.conversationId = [1])) = 1 := by
  have h := c3_replay_on_attach ⟨[([1], ⟨[1], false, ⟨[1], 7, [9]⟩⟩)], none⟩
    [⟨[4], 2, []⟩] ⟨[([2], ⟨[2], true, ⟨[2], 9, []⟩⟩)], [], false⟩
    (by decide) (by decide)
  exact ⟨h.1, h.2.2.1, h.2.2.2.2 ([1], ⟨[1], false, ⟨[1], 7, [9]⟩⟩) (by decide)⟩

/-- C4. The connector counts consecutive heartbeat failures: from a zero
counter, three consecutive failures perform exactly one transport teardown
and return the counter to zero; fewer than three cause no teardown; every
heartbeat success resets the counter to zero. -/
theorem c4_three_strikes (s : ConnectorHeartbeatState) (h : s.heartbeatFailures = 0) :
    (iterateFailed 3 s).transportTeardowns = s.transportTeardowns + 1 ∧
    (iterateFailed 3 s).heartbeatFailures = 0 ∧
    (∀ n, n < 3 → (iterateFailed n s).transportTeardowns = s.transportTeardowns) ∧
    (∀ t, (onSuccessfulHeartbeat t).heartbeatFailures = 0) := by
  refine ⟨?_, ?_, ?_, fun t => rfl⟩
  · simp [iterateFailed, onFailedHeartbeat, h]
  · simp [iterateFailed, onFailedHeartbeat, h]
  · intro n hn
    interval_cases n
    · rfl
    · simp [iterateFailed, onFailedHeartbeat, h]
    · simp [iterateFailed, onFailedHeartbeat, h]

/-- Witness for C4 starting at a zeroed counter with five prior teardowns. -/
theorem c4_three_strikes_witness :
    (iterateFailed 3 ⟨0, 5⟩).transportTeardowns = 5 + 1 ∧
    (iterateFailed 3 ⟨0, 5⟩).heartbeatFailures = 0 ∧
    (iterateFailed 2 ⟨0, 5⟩).transportTeardowns = 5 ∧
    (onSuccessfulHeartbeat ⟨2, 9⟩).heartbeatFailures = 0 := by
  have h := c4_three_strikes ⟨0, 5⟩ rfl
  exact ⟨h.1, h.2.1, h.2.2.1 2 (by decide), h.2.2.2 ⟨2, 9⟩⟩

/-- C5 counterexample. In connection2.py the heartbeat reply does pass
through the Dispatcher and touches its conversation map: handling a
`HeartbeatRequest` against an empty, connected dispatcher inserts a
conversation into `active_conversations`, refuting the claim that the reply
"never passes through the Dispatcher or touches its conversation map". -/
theorem c5_counterexample_reply_enters_map :
    (handleHeartbeatRequest2 ⟨[], [], true⟩ (List.replicate 16 0)).activeConversations
      ≠ [] := by decide

/-- C5 (amended). For every inbound `HeartbeatRequest`: in connection.py the
reader routes it to the `PaceMaker`, which immediately emits a
`HeartbeatResponse` bearing the same conversation id directly onto the
outbound queue — the message is never placed on the inbound queue and the
dispatcher is untouched; in connection2.py the reply is instead enqueued as
a `Heartbeat` conversation through the Dispatcher and inserted into its
conversation map. -/
theorem c5_heartbeat_reply_amended (pm : PaceMaker) (inQ : List InboundMessage)
    (outQ : List OutboundMessage) (m : InboundMessage) (d : Dispatcher2)
    (h : m.command = (heartbeatRequestCmd : Int)) :
    routeMessage pm inQ outQ m = (pm, inQ, outQ ++ [heartbeatReply m.conversationId]) ∧
    (heartbeatReply m.conversationId).conversationId = m.conversationId ∧
    (heartbeatReply m.conversationId).command = heartbeatResponseCmd ∧
    (handleHeartbeatRequest2 d m.conversationId).activeConversations
      = upsertConvo d.activeConversations m.conversationId
          (heartbeatConversation m.conversationId) := by
  refine ⟨?_, rfl, rfl, ?_⟩
  · rw [routeMessage, if_pos h]
    rfl
  · show (enqueueConversation d (heartbeatConversation m.conversationId)).activeConversations
      = _
    by_cases hc : d.connected <;> simp [enqueueConversation, heartbeatConversation, hc]

/-- Witness for C5 (amended) at a concrete heartbeat request. -/
theorem c5_heartbeat_reply_amended_witness :
    routeMessage ⟨List.replicate 16 1, none⟩ [] [] ⟨List.replicate 16 3, 1, []⟩
      = (⟨List.replicate 16 1, none⟩, [], [heartbeatReply (List.replicate 16 3)]) ∧
    (handleHeartbeatRequest2 ⟨[], [], true⟩ (List.replicate 16 3)).activeConversations
      = upsertConvo [] (List.replicate 16 3) (heartbeatConversation (List.replicate 16 3)) := by
  have h := c5_heartbeat_reply_amended ⟨List.replicate 16 1, none⟩ [] []
    ⟨List.replicate 16 3, 1, []⟩ ⟨[], [], true⟩ (by decide)
  exact ⟨h.1, h.2.2.2⟩

theorem mem_upsertConvo (m : List (List Byte × Conversation)) (k : List Byte)
    (v : Conversation) : (k, v) ∈ upsertConvo m k v := by
  rw [upsertConvo]
  by_cases h : m.any (fun p => p.1 == k)
  · rw [if_pos h]
    rw [List.any_eq_true] at h
    obtain ⟨p, hp, hpk⟩ := h
    refine List.mem_map.mpr ⟨p, hp, ?_⟩
    rw [if_pos hpk]
  · rw [if_neg h]
    exact List.mem_append_right _ (by simp)

theorem startConversation_eq (d : Dispatcher1) (c : Conversation) :
    startConversation d c =
      { activeConversations := if c.oneWay then d.activeConversations
          else upsertConvo d.activeConversations c.conversationId c
        output := d.output.map (fun q => q ++ [c.startMessage]) } := by
  obtain ⟨m0, o0⟩ := d
  by_cases h : c.oneWay <;> cases o0 <;> simp [startConversation, h]

theorem enqueueConversation_eq (d2 : Dispatcher2) (c : Conversation) :
    enqueueConversation d2 c =
      { activeConversations := upsertConvo d2.activeConversations c.conversationId c
        output := if d2.connected then d2.output ++ [c.startMessage] else d2.output
        connected := d2.connected } := by
  by_cases h : d2.connected <;> simp [enqueueConversation, h]

/-- C6 counterexample. connection2.py's `enqueue_conversation` inserts a
one-way conversation into the conversation map, refuting "if the
conversation is one-way it is sent but not inserted into the conversation
map". -/
theorem c6_counterexample_oneway_tracked :
    (enqueueConversation ⟨[], [], false⟩ ⟨[9], true, ⟨[9], 3, []⟩⟩).activeConversations
      = [([9], ⟨[9], true, ⟨[9], 3, []⟩⟩)] := by decide

/-- C6 (amended). In connection.py's `start_conversation`: a one-way
conversation is not inserted into the map and its start frame is pushed
immediately exactly when a transport is attached — started while detached, a
one-way conversation leaves the dispatcher completely unchanged and is never
sent; a tracked conversation is inserted, its frame is pushed immediately
exactly when attached, and otherwise it is deferred: the next `write_to`
(attach) emits it. In connection2.py's `enqueue_conversation` every
conversation, one-way included, is inserted into the map, and its frame is
pushed exactly when connected. -/
theorem c6_start_conversation_amended (d : Dispatcher1) (d2 : Dispatcher2)
    (c : Conversation) (q2 : List OutboundMessage) :
    (c.oneWay = true → (startConversation d c).activeConversations = d.activeConversations) ∧
    (c.oneWay = false → (startConversation d c).activeConversations
        = upsertConvo d.activeConversations c.conversationId c) ∧
    (∀ q, d.output = some q →
        (startConversation d c).output = some (q ++ [c.startMessage])) ∧
    (d.output = none → (startConversation d c).output = none) ∧
    (c.oneWay = true → d.output = none → startConversation d c = d) ∧
    (c.oneWay = false → c.startMessage ∈
        ((writeTo (startConversation d c) q2).output.getD [])) ∧
    (enqueueConversation d2 c).activeConversations
      = upsertConvo d2.activeConversations c.conversationId c ∧
    (d2.connected = true → (enqueueConversation d2 c).output = d2.output ++ [c.startMessage]) ∧
    (d2.connected = false → (enqueueConversation d2 c).output = d2.output) := by
  refine ⟨?_, ?_, ?_, ?_, ?_, ?_, ?_, ?_, ?_⟩
  · intro h1
    rw [startConversation_eq]
    simp [h1]
  · intro h1
    rw [startConversation_eq]
    simp [h1]
  · intro q hq
    rw [startConversation_eq, hq]
    rfl
  · intro hq
    rw [startConversation_eq, hq]
    rfl
  · intro h1 hq
    rw [startConversation_eq, hq, h1]
    show ({ activeConversations := d.activeConversations, output := none } : Dispatcher1) = d
    rw [← hq]
  · intro h1
    rw [startConversation_eq, writeTo]
    simp only [h1, if_false, Bool.false_eq_true, Option.getD_some]
    refine List.mem_append_right _ ?_
    exact List.mem_map.mpr ⟨(c.conversationId, c), mem_upsertConvo _ _ _, rfl⟩
  · rw [enqueueConversation_eq]
  · intro h2c
    rw [enqueueConversation_eq]
    simp [h2c]
  · intro h2c
    rw [enqueueConversation_eq]
    simp [h2c]

/-- Witness for C6 (amended): a one-way conversation against a detached
dispatcher, and a connection2 dispatcher that is not connected. -/
theorem c6_start_conversation_amended_witness :
    (startConversation ⟨[], none⟩ ⟨[9], true, ⟨[9], 3, []⟩⟩).activeConversations = [] ∧
    startConversation ⟨[], none⟩ ⟨[9], true, ⟨[9], 3, []⟩⟩ = ⟨[], none⟩ ∧
    (enqueueConversation ⟨[], [], false⟩ ⟨[9], true, ⟨[9], 3, []⟩⟩).activeConversations
      = upsertConvo [] [9] ⟨[9], true, ⟨[9], 3, []⟩⟩ ∧
    (enqueueConversation ⟨[], [], false⟩ ⟨[9], true, ⟨[9], 3, []⟩⟩).output = [] := by
  have h := c6_start_conversation_amended ⟨[], none⟩ ⟨[], [], false⟩
    ⟨[9], true, ⟨[9], 3, []⟩⟩ []
  exact ⟨h.1 rfl, h.2.2.2.2.1 rfl rfl, h.2.2.2.2.2.2.1, h.2.2.2.2.2.2.2.2 rfl⟩

/-- C7 counterexample. After discovery exhaustion the outstanding result
handle of a tracked conversation stays pending: the terminal error is not
delivered to it, refuting "delivered both to every outstanding result
handle and via the stopped event". -/
theorem c7_counterexample_handles_not_failed :
    ¬ allHandlesFailed
      (onConnectorFailed
        (⟨ConnectorState.Connecting, true, 0, false, []⟩,
         ⟨[(List.replicate 16 0, none)]⟩) 7).2 7 := by decide

/-- C7 (amended). When discovery is exhausted the Connector stops: the state
becomes `Stopping`, the active transport is stopped and cleared, the run
loop is cancelled, and the terminal error is delivered via the `stopped`
event (in connection2 via the `Stop` command of `_run`, which also exits the
loop) — but the dispatcher's outstanding result handles are left untouched,
not failed with the error. -/
theorem c7_stop_amended (cst : ConnectorStopState) (rh : ResultHandles) (e : Nat)
    (ev : List (Option Nat)) :
    (onConnectorFailed (cst, rh) e).1.stoppedEvents = cst.stoppedEvents ++ [some e] ∧
    (onConnectorFailed (cst, rh) e).1.state = ConnectorState.Stopping ∧
    (onConnectorFailed (cst, rh) e).1.activeProtocol = false ∧
    (onConnectorFailed (cst, rh) e).1.runLoopCancelled = true ∧
    (onConnectorFailed (cst, rh) e).2 = rh ∧
    runStopCommand2 ev (some e) = (ev ++ [some e], true) :=
  ⟨rfl, rfl, rfl, rfl, rfl, rfl⟩

/-- C8 counterexample. connection2.py dials with no timeout: a dial that
never completes hangs the attempt forever and no `HandleConnectFailure` is
ever enqueued, refuting "every dial attempt made by the Connector is
bounded by connect_timeout". -/
theorem c8_counterexample_unbounded_dial2 :
    attemptConnect2 ⟨none, none⟩ = none ∧
    attemptConnectInstr2 ⟨none, none⟩ = none := by decide

/-- C8 (amended). In connection.py every dial attempt is bounded by
`connect_timeout` (default 5 s): the await returns no later than the
timeout, and both a never-completing and a too-slow dial are surfaced as
`HandleConnectFailure` on the control queue (as is a dial error). In
connection2.py dialing has no timeout: the attempt returns exactly when the
dial completes, and a dial that never completes never returns. -/
theorem c8_connect_timeout_amended (d : DialAttempt) :
    (attemptConnect1 defaultConnectTimeout d).2 ≤ defaultConnectTimeout ∧
    defaultConnectTimeout = 5 ∧
    (d.completesAt = none →
      attemptConnectInstr1 defaultConnectTimeout d = [ConnectorCommand.HandleConnectFailure]) ∧
    (∀ t, d.completesAt = some t → defaultConnectTimeout < t →
      attemptConnectInstr1 defaultConnectTimeout d = [ConnectorCommand.HandleConnectFailure]) ∧
    (∀ t e, d.completesAt = some t → t ≤ defaultConnectTimeout → d.failure = some e →
      attemptConnectInstr1 defaultConnectTimeout d = [ConnectorCommand.HandleConnectFailure]) ∧
    (∀ t, d.completesAt = some t → ∃ r, attemptConnect2 d = some (r, t)) ∧
    (d.completesAt = none → attemptConnect2 d = none) := by
  obtain ⟨ct, f⟩ := d
  refine ⟨?_, rfl, ?_, ?_, ?_, ?_, ?_⟩
  · cases ct with
    | none => simp [attemptConnect1]
    | some t =>
      by_cases h : t ≤ defaultConnectTimeout
      · cases f <;> simp [attemptConnect1, h]
      · simp [attemptConnect1, h]
  · intro h
    simp only at h
    subst h
    rfl
  · intro t ht hlt
    simp only at ht
    subst ht
    have h2 : ¬ t ≤ defaultConnectTimeout := by omega
    cases f <;> simp [attemptConnectInstr1, attemptConnect1, h2]
  · intro t e ht hle hf
    simp only at ht hf
    subst ht
    subst hf
    simp [attemptConnectInstr1, attemptConnect1, hle]
  · intro t ht
    simp only at ht
    subst ht
    cases f <;> exact ⟨_, rfl⟩
  · intro h
    simp only at h
    subst h
    rfl

/-- Witness for C8 (amended) at a never-completing dial. -/
theorem c8_connect_timeout_amended_witness :
    (attemptConnect1 defaultConnectTimeout ⟨none, none⟩).2 ≤ defaultConnectTimeout ∧
    defaultConnectTimeout = 5 ∧
    attemptConnectInstr1 defaultConnectTimeout ⟨none, none⟩
      = [ConnectorCommand.HandleConnectFailure] ∧
    attemptConnect2 ⟨none, none⟩ = none := by
  have h := c8_connect_timeout_amended ⟨none, none⟩
  exact ⟨h.1, h.2.1, h.2.2.1 rfl, h.2.2.2.2.2.2 rfl⟩

/-- C9. A `HeartbeatResponse` whose conversation id differs from the
pacemaker's fixed heartbeat id is silently discarded by connection.py: the
pacemaker state (including the pending future) is unchanged, the message is
never placed on the inbound queue — hence never delivered to the
Dispatcher — and the outbound queue is untouched. -/
theorem c9_foreign_heartbeat_response_discarded (pm : PaceMaker)
    (inQ : List InboundMessage) (outQ : List OutboundMessage) (m : InboundMessage)
    (hcmd : m.command = (heartbeatResponseCmd : Int))
    (hid : m.conversationId ≠ pm.heartbeatId) :
    routeMessage pm inQ outQ m = (pm, inQ, outQ) := by
  rw [routeMessage]
  rw [if_neg (by rw [hcmd]; decide)]
  rw [if_pos hcmd]
  rw [handleResponse, if_neg hid]

/-- Witness for C9: a response with a foreign conversation id against a
pacemaker with a pending future. -/
theorem c9_foreign_heartbeat_response_discarded_witness :
    routeMessage ⟨List.replicate 16 1, some none⟩ [] [] ⟨List.replicate 16 2, 2, []⟩
      = (⟨List.replicate 16 1, some none⟩, [], []) :=
  c9_foreign_heartbeat_response_discarded ⟨List.replicate 16 1, some none⟩ [] []
    ⟨List.replicate 16 2, 2, []⟩ (by decide) (by decide)

end PhotonPump
